import Mathlib

/-!
Verification development for the ObjectBox generator's model-reconciliation
core.  Go code is shallowly embedded: Go strings become `List Char`, machine
integers become `Nat` with explicit bounds (`< 2 ^ 32`, `< 2 ^ 64`), fallible
Go functions return an explicit result type, and a Go runtime panic (e.g. an
out-of-range slice index) is a distinct result constructor so that totality
claims can be settled.
-/

namespace ObxGen

/-- Go strings are modelled as lists of characters. -/
abbrev Str := List Char

/-- Convenience conversion from a Lean string literal to the `Str` model. -/
def chars (s : String) : Str := s.data

/-- Result type of a Go function returning `(value, error)`: `panics` models a Go
runtime panic, `error` a returned non-nil `error`, `ok` a successful return. -/
inductive Res (ε α : Type) where
  | panics : Res ε α
  | error : ε → Res ε α
  | ok : α → Res ε α
deriving DecidableEq

/-- Errors produced by the identifier module (`modelinfo/iduid.go`).  The Go
code returns `error` values built with `errors.New` / `fmt.Errorf`; here each
construction site gets one constructor. -/
inductive IdErr where
  | undefined : Nat → IdErr
  | parseFail : Str → IdErr
  | isZero : Nat → IdErr
  | tooManyColons : IdErr
deriving DecidableEq

/-- True of an ASCII decimal digit, as classified by Go's `strconv`. -/
def isDig (c : Char) : Bool := 48 ≤ c.toNat && c.toNat ≤ 57

/-- Numeric value of a digit character (Go: `c - '0'`). -/
def charVal (c : Char) : Nat := c.toNat - 48

/-- The digit character for `n < 10` (Go: `'0' + n`). -/
def digitChar (n : Nat) : Char := Char.ofNat (48 + n)

/-- Value of a decimal digit string, most significant digit first. -/
def digitsVal (s : Str) : Nat := s.foldl (fun a c => 10 * a + charVal c) 0

/-- Embedding of Go `strconv.ParseUint(s, 10, bitsize)`: succeeds exactly on a
non-empty all-digit string whose value fits in `bitsize` bits (no sign prefix
is permitted by `ParseUint`; overflow yields `ErrRange`, i.e. failure). -/
def parseUint (s : Str) (bitsize : Nat) : Option Nat :=
  if s ≠ [] ∧ s.all isDig = true ∧ digitsVal s < 2 ^ bitsize then some (digitsVal s)
  else none

/-- Embedding of Go `strings.Split(s, sep)` for a single-character separator:
the list of maximal runs between separators; `Split("") = [""]` and the result
is never empty. -/
def splitSep (sep : Char) : Str → List Str
  | [] => [[]]
  | c :: rest =>
    match splitSep sep rest with
    | [] => [[c]]
    | h :: t => if c = sep then [] :: h :: t else (c :: h) :: t

/-- Inverse of `splitSep`: joins pieces with the separator. -/
def joinSep (sep : Char) : List Str → Str
  | [] => []
  | [x] => x
  | x :: y :: t => x ++ sep :: joinSep sep (y :: t)

/-- Decimal digit string of `n`, fuelled so that it computes by `rfl`;
`fuel ≥ n + 1` always suffices. -/
def natDigitsF : Nat → Nat → Str
  | 0, _ => []
  | fuel + 1, n => if n < 10 then [digitChar n] else natDigitsF fuel (n / 10) ++ [digitChar (n % 10)]

/-- Decimal representation of `n`, as produced by Go's
`strconv.FormatInt`/`FormatUint` for base 10 (no sign, no leading zeros). -/
def natDigits (n : Nat) : Str := natDigitsF (n + 1) n

/-- Embedding of `CreateIdUid` (iduid.go): the `"id:uid"` string for the pair. -/
def CreateIdUid (id uid : Nat) : Str := natDigits id ++ ':' :: natDigits uid

/-- Embedding of `IdUid.getComponent` (iduid.go).  Note the Go code reads
`strings.Split(string(str), ":")[n]`, so when the split has no component `n`
the function panics with an index-out-of-range runtime error; that case is the
`panics` constructor. -/
def getComponent (s : Str) (n bitsize : Nat) (allowZero : Bool) : Res IdErr Nat :=
  if s.length = 0 then .error (.undefined n)
  else
    match (splitSep ':' s).get? n with
    | none => .panics
    | some idStr =>
      match parseUint idStr bitsize with
      | none => .error (.parseFail idStr)
      | some component =>
        if component = 0 && !allowZero then .error (.isZero n)
        else .ok component

/-- Embedding of `IdUid.GetId`: the 32-bit id component, rejecting zero. -/
def GetId (s : Str) : Res IdErr Nat :=
  match getComponent s 0 32 false with
  | .panics => .panics
  | .error e => .error e
  | .ok id => .ok id

/-- Embedding of `IdUid.GetUid`: the 64-bit uid component, rejecting zero. -/
def GetUid (s : Str) : Res IdErr Nat := getComponent s 1 64 false

/-- Embedding of `IdUid.GetUidAllowZero`: the relaxed accessor present in the
source, permitting a zero uid component. -/
def GetUidAllowZero (s : Str) : Res IdErr Nat := getComponent s 1 64 true

/-- Embedding of `IdUid.Get`: the pair of both components. -/
def Get (s : Str) : Res IdErr (Nat × Nat) :=
  match GetId s with
  | .panics => .panics
  | .error e => .error e
  | .ok id =>
    match GetUid s with
    | .panics => .panics
    | .error e => .error e
    | .ok uid => .ok (id, uid)

/-- Embedding of `IdUid.Validate` (iduid.go): checks the uid component, then
the id component, then that the split has exactly two parts. -/
def Validate (s : Str) : Res IdErr Unit :=
  match GetUid s with
  | .panics => .panics
  | .error e => .error e
  | .ok _ =>
    match GetId s with
    | .panics => .panics
    | .error e => .error e
    | .ok _ =>
      if (splitSep ':' s).length ≠ 2 then .error .tooManyColons
      else .ok ()

/-- Embedding of `IdUid.getIdSafe`: the id component, or `0` if unavailable. -/
def getIdSafe (s : Str) : Nat :=
  match GetId s with
  | .ok i => i
  | _ => 0

/-- Embedding of `IdUid.getUidSafe`: the uid component, or `0` if unavailable. -/
def getUidSafe (s : Str) : Nat :=
  match GetUid s with
  | .ok u => u
  | _ => 0

/-- C1: the spec promises a FormatError (an error value) on an identifier
string with a missing `:` separator, but the code panics there: on the input
`"123"`, `GetUid` and `Validate` crash with an index-out-of-range panic in
`strings.Split(...)[1]` — only `GetId` (component 0) survives.  This theorem
evaluates the embedded code at the failing input. -/
theorem iduid_missing_separator_panics :
    Validate (chars "123") = Res.panics ∧
    GetUid (chars "123") = Res.panics ∧
    GetId (chars "123") = Res.ok 123 := by
  refine ⟨rfl, rfl, rfl⟩

/-! Arithmetic facts about the decimal digit helpers. -/

theorem charVal_digitChar (n : Nat) (h : n < 10) : charVal (digitChar n) = n := by
  interval_cases n <;> decide

theorem isDig_digitChar (n : Nat) (h : n < 10) : isDig (digitChar n) = true := by
  interval_cases n <;> decide

theorem digitChar_ne_colon (n : Nat) (h : n < 10) : digitChar n ≠ ':' := by
  interval_cases n <;> decide

theorem charVal_lt_ten (c : Char) (h : isDig c = true) : charVal c < 10 := by
  simp only [isDig, Bool.and_eq_true, decide_eq_true_eq] at h
  simp only [charVal]
  omega

theorem digitChar_charVal (c : Char) (h : isDig c = true) : digitChar (charVal c) = c := by
  simp only [isDig, Bool.and_eq_true, decide_eq_true_eq] at h
  simp only [digitChar, charVal]
  rw [Nat.add_sub_cancel' h.1, Char.ofNat_toNat]

theorem natDigitsF_congr (f₁ : Nat) :
    ∀ f₂ n, n < f₁ → n < f₂ → natDigitsF f₁ n = natDigitsF f₂ n := by
  induction f₁ with
  | zero => intro f₂ n h _; omega
  | succ f ih =>
    intro f₂ n h₁ h₂
    cases f₂ with
    | zero => omega
    | succ g =>
      simp only [natDigitsF]
      by_cases hn : n < 10
      · simp [hn]
      · have hdiv : n / 10 < n := Nat.div_lt_self (by omega) (by omega)
        simp only [if_neg hn]
        rw [ih g (n / 10) (by omega) (by omega)]

theorem natDigits_lt10 (n : Nat) (h : n < 10) : natDigits n = [digitChar n] := by
  simp [natDigits, natDigitsF, h]

theorem natDigits_ge10 (n : Nat) (h : 10 ≤ n) :
    natDigits n = natDigits (n / 10) ++ [digitChar (n % 10)] := by
  have hdiv : n / 10 < n := Nat.div_lt_self (by omega) (by omega)
  have h1 : natDigits n = natDigitsF n (n / 10) ++ [digitChar (n % 10)] := by
    rw [natDigits, show natDigitsF (n + 1) n
        = if n < 10 then [digitChar n] else natDigitsF n (n / 10) ++ [digitChar (n % 10)] from rfl,
      if_neg (by omega : ¬ n < 10)]
  rw [h1, natDigitsF_congr n (n / 10 + 1) (n / 10) (by omega) (by omega)]
  rfl

theorem digitsVal_append (l : Str) (c : Char) :
    digitsVal (l ++ [c]) = 10 * digitsVal l + charVal c := by
  simp [digitsVal, List.foldl_append]

theorem digitsVal_natDigits (n : Nat) : digitsVal (natDigits n) = n := by
  induction n using Nat.strong_induction_on with
  | _ n ih =>
    by_cases h : n < 10
    · rw [natDigits_lt10 n h]
      simp [digitsVal, charVal_digitChar n h]
    · have hdiv : n / 10 < n := Nat.div_lt_self (by omega) (by omega)
      rw [natDigits_ge10 n (by omega), digitsVal_append, ih (n / 10) hdiv,
        charVal_digitChar _ (Nat.mod_lt _ (by omega))]
      omega

theorem natDigits_ne_nil (n : Nat) : natDigits n ≠ [] := by
  by_cases h : n < 10
  · rw [natDigits_lt10 n h]; simp
  · rw [natDigits_ge10 n (by omega)]; simp

theorem natDigits_all_dig (n : Nat) : (natDigits n).all isDig = true := by
  induction n using Nat.strong_induction_on with
  | _ n ih =>
    by_cases h : n < 10
    · rw [natDigits_lt10 n h]
      simp [isDig_digitChar n h]
    · have hdiv : n / 10 < n := Nat.div_lt_self (by omega) (by omega)
      rw [natDigits_ge10 n (by omega), List.all_append]
      simp [ih (n / 10) hdiv, isDig_digitChar _ (Nat.mod_lt _ (by omega))]

theorem colon_not_mem_natDigits (n : Nat) : ':' ∉ natDigits n := by
  induction n using Nat.strong_induction_on with
  | _ n ih =>
    by_cases h : n < 10
    · rw [natDigits_lt10 n h]
      simp [(digitChar_ne_colon n h).symm]
    · have hdiv : n / 10 < n := Nat.div_lt_self (by omega) (by omega)
      rw [natDigits_ge10 n (by omega)]
      simp only [List.mem_append, List.mem_singleton]
      push_neg
      exact ⟨ih (n / 10) hdiv, (digitChar_ne_colon _ (Nat.mod_lt _ (by omega))).symm⟩

theorem foldl_digits_ge (l : Str) : ∀ a : Nat, a ≤ l.foldl (fun x c => 10 * x + charVal c) a := by
  induction l with
  | nil => intro a; simp
  | cons c rest ih =>
    intro a
    refine le_trans ?_ (ih (10 * a + charVal c))
    omega

theorem digitsVal_pos (l : Str) (hne : l ≠ []) (hdig : l.all isDig = true)
    (hhead : l.head? ≠ some '0') : 1 ≤ digitsVal l := by
  cases l with
  | nil => exact absurd rfl hne
  | cons c rest =>
    have hc : isDig c = true := by
      simp only [List.all_cons, Bool.and_eq_true] at hdig
      exact hdig.1
    have hcv : 1 ≤ charVal c := by
      rcases Nat.eq_zero_or_pos (charVal c) with h0 | h1
      · exfalso
        apply hhead
        have : digitChar (charVal c) = c := digitChar_charVal c hc
        rw [h0] at this
        simp only [List.head?_cons]
        rw [← this]
        rfl
      · exact h1
    calc 1 ≤ charVal c := hcv
    _ ≤ digitsVal (c :: rest) := by
      simp only [digitsVal, List.foldl_cons]
      have := foldl_digits_ge rest (10 * 0 + charVal c)
      simpa using this

theorem natDigits_digitsVal (l : Str) (hdig : l.all isDig = true) (hne : l ≠ [])
    (hhead : l.head? ≠ some '0') : natDigits (digitsVal l) = l := by
  induction l using List.reverseRecOn with
  | nil => exact absurd rfl hne
  | append_singleton l' c ih =>
    rw [List.all_append] at hdig
    simp only [Bool.and_eq_true, List.all_cons, List.all_nil, Bool.and_true] at hdig
    obtain ⟨hdig', hc⟩ := hdig
    rcases List.eq_nil_or_concat l' with h' | ⟨L, b, hLb⟩
    · subst h'
      simp only [List.nil_append]
      have hlt : charVal c < 10 := charVal_lt_ten c hc
      have : digitsVal [c] = charVal c := by simp [digitsVal]
      rw [this, natDigits_lt10 _ hlt, digitChar_charVal c hc]
    · have hne' : l' ≠ [] := by rw [hLb]; simp
      have hhead' : l'.head? ≠ some '0' := by
        cases l' with
        | nil => exact absurd rfl hne'
        | cons a t => simpa using hhead
      have hv' : 1 ≤ digitsVal l' := digitsVal_pos l' hne' hdig' hhead'
      have hcv : charVal c < 10 := charVal_lt_ten c hc
      rw [digitsVal_append]
      have h10 : 10 ≤ 10 * digitsVal l' + charVal c := by omega
      rw [natDigits_ge10 _ h10]
      have hdivq : (10 * digitsVal l' + charVal c) / 10 = digitsVal l' := by omega
      have hmodq : (10 * digitsVal l' + charVal c) % 10 = charVal c := by omega
      rw [hdivq, hmodq, ih hdig' hne' hhead', digitChar_charVal c hc]

/-! Facts about `splitSep` and `joinSep`. -/

theorem splitSep_cons_eq (sep c : Char) (l : Str) (h t) (hs : splitSep sep l = h :: t) :
    splitSep sep (c :: l) = if c = sep then [] :: h :: t else (c :: h) :: t := by
  show (match splitSep sep l with
    | [] => [[c]]
    | h :: t => if c = sep then [] :: h :: t else (c :: h) :: t) = _
  rw [hs]

theorem splitSep_ne_nil (sep : Char) (l : Str) : splitSep sep l ≠ [] := by
  induction l with
  | nil => simp [splitSep]
  | cons c rest ih =>
    cases hs : splitSep sep rest with
    | nil => exact absurd hs ih
    | cons h t =>
      rw [splitSep_cons_eq sep c rest h t hs]
      by_cases hc : c = sep <;> simp [hc]

theorem splitSep_no_sep (sep : Char) (l : Str) (h : sep ∉ l) : splitSep sep l = [l] := by
  induction l with
  | nil => rfl
  | cons c rest ih =>
    simp only [List.mem_cons, not_or] at h
    rw [splitSep_cons_eq sep c rest rest [] (ih h.2), if_neg (fun hc => h.1 hc.symm)]

theorem splitSep_append (sep : Char) (l₁ l₂ : Str) (h : sep ∉ l₁) :
    splitSep sep (l₁ ++ sep :: l₂) = l₁ :: splitSep sep l₂ := by
  induction l₁ with
  | nil =>
    cases hs : splitSep sep l₂ with
    | nil => exact absurd hs (splitSep_ne_nil sep l₂)
    | cons a t =>
      show splitSep sep (sep :: l₂) = [] :: a :: t
      rw [splitSep_cons_eq sep sep l₂ a t hs, if_pos rfl]
  | cons c rest ih =>
    simp only [List.mem_cons, not_or] at h
    have hr := ih h.2
    show splitSep sep (c :: (rest ++ sep :: l₂)) = (c :: rest) :: splitSep sep l₂
    rw [splitSep_cons_eq sep c (rest ++ sep :: l₂) rest (splitSep sep l₂) hr,
      if_neg (fun hc => h.1 hc.symm)]

theorem joinSep_splitSep (sep : Char) (l : Str) : joinSep sep (splitSep sep l) = l := by
  induction l with
  | nil => rfl
  | cons c rest ih =>
    cases hs : splitSep sep rest with
    | nil => exact absurd hs (splitSep_ne_nil sep rest)
    | cons h t =>
      rw [hs] at ih
      rw [splitSep_cons_eq sep c rest h t hs]
      by_cases hc : c = sep
      · rw [if_pos hc, hc]
        show sep :: joinSep sep (h :: t) = sep :: rest
        rw [ih]
      · rw [if_neg hc]
        cases t with
        | nil =>
          show c :: h = c :: rest
          simp only [joinSep] at ih
          rw [ih]
        | cons y t' =>
          show (c :: h) ++ sep :: joinSep sep (y :: t') = c :: rest
          simp only [joinSep] at ih
          rw [List.cons_append, ih]

/-! Characterisations of the identifier accessors. -/

theorem parseUint_some (s : Str) (bitsize v : Nat) (h : parseUint s bitsize = some v) :
    s ≠ [] ∧ s.all isDig = true ∧ digitsVal s = v ∧ v < 2 ^ bitsize := by
  unfold parseUint at h
  split at h
  · rename_i hc
    cases h
    exact ⟨hc.1, hc.2.1, rfl, hc.2.2⟩
  · exact absurd h (by simp)

theorem parseUint_natDigits (n bitsize : Nat) (h : n < 2 ^ bitsize) :
    parseUint (natDigits n) bitsize = some n := by
  unfold parseUint
  rw [if_pos ⟨natDigits_ne_nil n, natDigits_all_dig n, by rw [digitsVal_natDigits]; exact h⟩,
    digitsVal_natDigits]

theorem getComponent_ok (s : Str) (n bitsize : Nat) (az : Bool) (c : Nat)
    (h : getComponent s n bitsize az = Res.ok c) :
    s ≠ [] ∧ ∃ comp, (splitSep ':' s).get? n = some comp ∧ parseUint comp bitsize = some c
      ∧ (az = false → 0 < c) := by
  unfold getComponent at h
  split at h
  · exact absurd h (by simp)
  · rename_i hlen
    refine ⟨fun hnil => hlen (by rw [hnil]; rfl), ?_⟩
    cases hg : (splitSep ':' s).get? n with
    | none => rw [hg] at h; exact absurd h (by simp)
    | some comp =>
      rw [hg] at h
      have h₂ : (match parseUint comp bitsize with
          | none => Res.error (IdErr.parseFail comp)
          | some component =>
            if (decide (component = 0) && !az) = true then Res.error (IdErr.isZero n)
            else Res.ok component) = Res.ok c := h
      cases hp : parseUint comp bitsize with
      | none => rw [hp] at h₂; exact absurd h₂ (by simp)
      | some v =>
        rw [hp] at h₂
        have h₃ : (if (decide (v = 0) && !az) = true then Res.error (IdErr.isZero n)
            else Res.ok v) = Res.ok c := h₂
        split at h₃
        · exact absurd h₃ (by simp)
        · rename_i hz
          cases h₃
          refine ⟨comp, rfl, hp, fun haz => ?_⟩
          subst haz
          simp only [Bool.not_false, Bool.and_true, decide_eq_true_eq] at hz
          omega

theorem getComponent_eval (s : Str) (n bitsize : Nat) (az : Bool) (comp : Str) (v : Nat)
    (hne : s ≠ []) (hg : (splitSep ':' s).get? n = some comp)
    (hp : parseUint comp bitsize = some v) (hz : 0 < v) :
    getComponent s n bitsize az = Res.ok v := by
  unfold getComponent
  rw [if_neg (by simpa using fun h => hne (List.length_eq_zero.mp h)), hg]
  show (match parseUint comp bitsize with
    | none => Res.error (IdErr.parseFail comp)
    | some component =>
      if (decide (component = 0) && !az) = true then Res.error (IdErr.isZero n)
      else Res.ok component) = Res.ok v
  rw [hp]
  show (if (decide (v = 0) && !az) = true then Res.error (IdErr.isZero n)
    else Res.ok v) = Res.ok v
  have hv : ¬ v = 0 := by omega
  simp [hv]

theorem GetId_ok (s : Str) (i : Nat) (h : GetId s = Res.ok i) :
    getComponent s 0 32 false = Res.ok i := by
  unfold GetId at h
  cases hg : getComponent s 0 32 false <;> rw [hg] at h <;> simp_all

/-- C4 counterexample: the relaxed accessor present in the source is
`GetUidAllowZero`, and it accepts a ZERO UID — on `"1:0"` it returns uid `0`
with no error, while the strict `GetUid` rejects the same string.  So an
accessor does return a zero uid without error, and the relaxation is in the
uid position, not the id position. -/
theorem relaxed_accessor_zero_uid_counterexample :
    GetUidAllowZero (chars "1:0") = Res.ok 0 ∧
    GetUid (chars "1:0") = Res.error (IdErr.isZero 1) := ⟨rfl, rfl⟩

/-- C4 amended: the strict accessors `GetUid` and `GetId` never return a zero
component without an error, while the relaxed variant `GetUidAllowZero`
permits a zero component in the UID position (not the id position, as the
source has no relaxed id accessor). -/
theorem zero_component_rejection (s : Str) :
    (∀ u, GetUid s = Res.ok u → 0 < u) ∧
    (∀ i, GetId s = Res.ok i → 0 < i) ∧
    GetUidAllowZero (chars "1:0") = Res.ok 0 := by
  refine ⟨fun u h => ?_, fun i h => ?_, rfl⟩
  · obtain ⟨-, -, -, -, hz⟩ := getComponent_ok s 1 64 false u h
    exact hz rfl
  · obtain ⟨-, -, -, -, hz⟩ := getComponent_ok s 0 32 false i (GetId_ok s i h)
    exact hz rfl

/-- C4 witness: the amended theorem applied at the concrete string `"1:7"`. -/
theorem zero_component_rejection_witness : 0 < 7 :=
  (zero_component_rejection (chars "1:7")).1 7 rfl

/-- C5 counterexample: the string `"01:1"` (leading zero in the id component)
passes `Validate` and parses to `(1, 1)`, but `CreateIdUid 1 1` serialises to
`"1:1"`, which differs character for character from `"01:1"` — the
serialise-after-parse direction of the claimed round-trip fails. -/
theorem iduid_roundtrip_counterexample :
    Validate (chars "01:1") = Res.ok () ∧
    GetId (chars "01:1") = Res.ok 1 ∧
    GetUid (chars "01:1") = Res.ok 1 ∧
    CreateIdUid 1 1 ≠ chars "01:1" := ⟨rfl, rfl, rfl, by decide⟩

/-- C5 amended: parse-after-serialise holds for every id in `1..2^32-1` and
uid in `1..2^64-1`; serialise-after-parse holds for every string accepted by
`Validate` under the additional hypothesis (forced by the counterexample) that
neither component carries a leading zero. -/
theorem iduid_roundtrip :
    (∀ id uid : Nat, 0 < id → id < 2 ^ 32 → 0 < uid → uid < 2 ^ 64 →
      GetId (CreateIdUid id uid) = Res.ok id ∧
      GetUid (CreateIdUid id uid) = Res.ok uid ∧
      Validate (CreateIdUid id uid) = Res.ok ()) ∧
    (∀ (s : Str) (id uid : Nat), Validate s = Res.ok () →
      GetId s = Res.ok id → GetUid s = Res.ok uid →
      (∀ comp ∈ splitSep ':' s, comp.head? ≠ some '0') →
      CreateIdUid id uid = s) := by
  constructor
  · intro id uid hid1 hid2 huid1 huid2
    have hne : CreateIdUid id uid ≠ [] := by
      unfold CreateIdUid
      intro hc
      exact natDigits_ne_nil id (List.append_eq_nil.mp hc).1
    have hsplit : splitSep ':' (CreateIdUid id uid) = [natDigits id, natDigits uid] := by
      unfold CreateIdUid
      rw [splitSep_append ':' _ _ (colon_not_mem_natDigits id),
        splitSep_no_sep ':' _ (colon_not_mem_natDigits uid)]
    have hgid : getComponent (CreateIdUid id uid) 0 32 false = Res.ok id :=
      getComponent_eval _ 0 32 false (natDigits id) id hne (by rw [hsplit]; rfl)
        (parseUint_natDigits id 32 hid2) hid1
    have hguid : getComponent (CreateIdUid id uid) 1 64 false = Res.ok uid :=
      getComponent_eval _ 1 64 false (natDigits uid) uid hne (by rw [hsplit]; rfl)
        (parseUint_natDigits uid 64 huid2) huid1
    refine ⟨?_, hguid, ?_⟩
    · unfold GetId
      rw [hgid]
    · unfold Validate
      rw [show GetUid (CreateIdUid id uid) = Res.ok uid from hguid]
      simp only [Res.ok.injEq]
      unfold GetId
      rw [hgid, hsplit]
      simp
  · intro s id uid hv hid huid hcanon
    have hid' : getComponent s 0 32 false = Res.ok id := GetId_ok s id hid
    obtain ⟨hne, comp₀, hg₀, hp₀, hz₀⟩ := getComponent_ok s 0 32 false id hid'
    obtain ⟨-, comp₁, hg₁, hp₁, hz₁⟩ := getComponent_ok s 1 64 false uid huid
    have hlen : (splitSep ':' s).length = 2 := by
      unfold Validate at hv
      rw [show GetUid s = Res.ok uid from huid] at hv
      have hv₂ : (match GetId s with
          | Res.panics => Res.panics
          | Res.error e => Res.error e
          | Res.ok _ =>
            if (splitSep ':' s).length ≠ 2 then Res.error IdErr.tooManyColons
            else Res.ok ()) = Res.ok () := hv
      rw [hid] at hv₂
      have hv₃ : (if (splitSep ':' s).length ≠ 2 then Res.error IdErr.tooManyColons
          else Res.ok ()) = Res.ok () := hv₂
      by_cases hlc : (splitSep ':' s).length ≠ 2
      · rw [if_pos hlc] at hv₃; exact absurd hv₃ (by simp)
      · omega
    obtain ⟨l₁, l₂, hsplit⟩ : ∃ l₁ l₂, splitSep ':' s = [l₁, l₂] := by
      cases hs : splitSep ':' s with
      | nil => rw [hs] at hlen; simp at hlen
      | cons a t =>
        cases t with
        | nil => rw [hs] at hlen; simp at hlen
        | cons b t' =>
          cases t' with
          | nil => exact ⟨a, b, rfl⟩
          | cons c t'' => rw [hs] at hlen; simp at hlen
    rw [hsplit] at hg₀ hg₁
    have hc₀ : l₁ = comp₀ := by simpa using hg₀
    have hc₁ : l₂ = comp₁ := by simpa using hg₁
    rw [← hc₀] at hp₀
    rw [← hc₁] at hp₁
    obtain ⟨hne₀, hdig₀, hval₀, -⟩ := parseUint_some l₁ 32 id hp₀
    obtain ⟨hne₁, hdig₁, hval₁, -⟩ := parseUint_some l₂ 64 uid hp₁
    have hhead₀ : l₁.head? ≠ some '0' := hcanon l₁ (by rw [hsplit]; simp)
    have hhead₁ : l₂.head? ≠ some '0' := hcanon l₂ (by rw [hsplit]; simp)
    have hd₀ : natDigits id = l₁ := by
      rw [← hval₀]; exact natDigits_digitsVal l₁ hdig₀ hne₀ hhead₀
    have hd₁ : natDigits uid = l₂ := by
      rw [← hval₁]; exact natDigits_digitsVal l₂ hdig₁ hne₁ hhead₁
    have hjoin : s = l₁ ++ ':' :: l₂ := by
      have := joinSep_splitSep ':' s
      rw [hsplit] at this
      simpa [joinSep] using this.symm
    rw [hjoin]
    unfold CreateIdUid
    rw [hd₀, hd₁]

/-- C5 witness: the amended round-trip applied at the concrete pair `(3, 5)`
and the concrete canonical string `"3:5"`. -/
theorem iduid_roundtrip_witness :
    GetId (CreateIdUid 3 5) = Res.ok 3 ∧ CreateIdUid 3 5 = chars "3:5" :=
  ⟨(iduid_roundtrip.1 3 5 (by decide) (by decide) (by decide) (by decide)).1,
    iduid_roundtrip.2 (chars "3:5") 3 5 rfl rfl rfl (by decide)⟩

/-! Embedding of the field/property annotation processing (`Field.ProcessAnnotations`
in the binding package).  The property-type and property-flag numeric constants
live in the model package, which is not part of the provided sources; they are
modelled from the spec's list of semantic type tags and flags as distinct
numeric tags, with `0` reserved for "unsupported" as the schema reader's
`property.Type == 0` check requires. -/

def PropertyTypeBool : Nat := 1
def PropertyTypeByte : Nat := 2
def PropertyTypeShort : Nat := 3
def PropertyTypeChar : Nat := 4
def PropertyTypeInt : Nat := 5
def PropertyTypeLong : Nat := 6
def PropertyTypeFloat : Nat := 7
def PropertyTypeDouble : Nat := 8
def PropertyTypeString : Nat := 9
def PropertyTypeDate : Nat := 10
def PropertyTypeRelation : Nat := 11
def PropertyTypeByteVector : Nat := 23
def PropertyTypeStringVector : Nat := 30

def PropertyFlagId : Nat := 1
def PropertyFlagIndexed : Nat := 8
def PropertyFlagUnique : Nat := 32
def PropertyFlagIndexHash : Nat := 2048
def PropertyFlagIndexHash64 : Nat := 4096

/-- Modelled from the spec: the "integer variants" among the semantic type
tags (byte, short, char, int, long). -/
def isIntegerType (t : Nat) : Bool :=
  t = PropertyTypeByte || t = PropertyTypeShort || t = PropertyTypeChar ||
  t = PropertyTypeInt || t = PropertyTypeLong

/-- A model property, with the fields the embedded code reads or writes
(`model.Property`): name, `id:uid` identifier string, numeric type tag, flag
bits, optional index identifier and the pending-uid-request marker. -/
structure Property where
  name : Str
  id : Str
  type : Nat
  flags : Nat
  indexId : Option Str
  uidRequest : Bool
deriving DecidableEq

/-- Modelled from the spec: `Property.AddFlag` (model package, missing from
src) adds one flag bit to the property's flag set. -/
def Property.AddFlag (p : Property) (flag : Nat) : Property :=
  { p with flags := p.flags ||| flag }

/-- Modelled from the spec: `Property.SetIndex` (model package, missing from
src) attaches the optional index identifier slot — the spec's "optional index
Identifier (separate scope)" — failing if an index is already set. -/
def Property.SetIndex (p : Property) : Property × Option Bool :=
  if p.indexId.isSome then (p, some true) else ({ p with indexId := some [] }, none)

/-- Modelled from the spec: the relaxed id accessor `GetIdAllowZero` used by
the uid handler (missing from src).  Per the spec, "id may be transiently zero
pending allocation" and candidates start with the Identifier unset, so an
unset identifier reads as the transient zero id; otherwise this mirrors the
source's `GetUidAllowZero` at component 0 with the 32-bit size. -/
def GetIdAllowZero (s : Str) : Res IdErr Nat :=
  if s = [] then Res.ok 0 else getComponent s 0 32 true

/-- An annotation map: association list from annotation name to its value
(Go: `map[string]*Annotation`; an entry's presence models a non-nil pointer
and its string is the `Value` field). -/
abbrev AnnMap := List (Str × Str)

/-- Go map lookup `a[k]`. -/
def annGet (a : AnnMap) (k : Str) : Option Str :=
  match a with
  | [] => none
  | (q, v) :: rest => if q = k then some v else annGet rest k

/-- Embedding of the binding-package `Field`: parsed-field name, skip marker
and the underlying model property. -/
structure Field where
  name : Str
  isSkipped : Bool
  property : Property
deriving DecidableEq

/-- Errors returned by `Field.ProcessAnnotations`; one constructor per Go
return site. -/
inductive FErr where
  | ignoreMisuse
  | nameEmpty
  | dateNotLong (t : Nat)
  | unknownIndexType (v : Str)
  | indexAlreadySet
  | uidParseFail (v : Str)
  | idParseFail
deriving DecidableEq

/-- Sequencing of in-place mutation steps with Go early-return on error: the
state reached so far is kept (Go mutates the property in place). -/
def pstep (r : Field × Option FErr) (f : Field → Field × Option FErr) : Field × Option FErr :=
  match r with
  | (fld, some e) => (fld, some e)
  | (fld, none) => f fld

/-- Go `strings.ToLower` restricted to the characters that occur here. -/
def toLowerStr (s : Str) : Str := s.map Char.toLower

/-- The `field.property.SetIndex()` call sites, lifting the error. -/
def setIndexOn (fld : Field) : Field × Option FErr :=
  match fld.property.SetIndex with
  | (p, some _) => ({ fld with property := p }, some FErr.indexAlreadySet)
  | (p, none) => ({ fld with property := p }, none)

/-- The `a["id"]` branch of `ProcessAnnotations`. -/
def idBranch (a : AnnMap) (fld : Field) : Field × Option FErr :=
  match annGet a (chars "id") with
  | some _ => ({ fld with property := fld.property.AddFlag PropertyFlagId }, none)
  | none => (fld, none)

/-- The `a["name"]` branch of `ProcessAnnotations`. -/
def nameBranch (a : AnnMap) (fld : Field) : Field × Option FErr :=
  match annGet a (chars "name") with
  | none => (fld, none)
  | some v =>
    if v = [] then (fld, some FErr.nameEmpty)
    else ({ fld with property := { fld.property with name := toLowerStr v } }, none)

/-- The `a["date"]` branch of `ProcessAnnotations`: requires the underlying
type to be exactly `PropertyTypeLong` and rewrites it to `PropertyTypeDate`. -/
def dateBranch (a : AnnMap) (fld : Field) : Field × Option FErr :=
  match annGet a (chars "date") with
  | none => (fld, none)
  | some _ =>
    if fld.property.type ≠ PropertyTypeLong then (fld, some (FErr.dateNotLong fld.property.type))
    else ({ fld with property := { fld.property with type := PropertyTypeDate } }, none)

/-- The `a["index"]` branch of `ProcessAnnotations`. -/
def indexBranch (a : AnnMap) (fld : Field) : Field × Option FErr :=
  match annGet a (chars "index") with
  | none => (fld, none)
  | some v =>
    let lv := toLowerStr v
    if lv = [] then
      if fld.property.type = PropertyTypeString then
        setIndexOn { fld with property := fld.property.AddFlag PropertyFlagIndexHash }
      else
        setIndexOn { fld with property := fld.property.AddFlag PropertyFlagIndexed }
    else if lv = chars "value" then
      setIndexOn { fld with property := fld.property.AddFlag PropertyFlagIndexed }
    else if lv = chars "hash" then
      setIndexOn { fld with property := fld.property.AddFlag PropertyFlagIndexHash }
    else if lv = chars "hash64" then
      setIndexOn { fld with property := fld.property.AddFlag PropertyFlagIndexHash64 }
    else (fld, some (FErr.unknownIndexType v))

/-- The `a["unique"]` branch of `ProcessAnnotations`. -/
def uniqueBranch (a : AnnMap) (fld : Field) : Field × Option FErr :=
  match annGet a (chars "unique") with
  | none => (fld, none)
  | some _ => setIndexOn { fld with property := fld.property.AddFlag PropertyFlagUnique }

/-- The `a["uid"]` branch of `ProcessAnnotations`: an empty value marks a
pending uid request; a non-empty value is parsed as a 64-bit uid and the
identifier is rewritten to `CreateIdUid(currentIdAllowingZero, uid)`. -/
def uidBranch (a : AnnMap) (fld : Field) : Field × Option FErr :=
  match annGet a (chars "uid") with
  | none => (fld, none)
  | some v =>
    if v = [] then ({ fld with property := { fld.property with uidRequest := true } }, none)
    else
      match parseUint v 64 with
      | none => (fld, some (FErr.uidParseFail v))
      | some uid =>
        match GetIdAllowZero fld.property.id with
        | Res.ok id => ({ fld with property := { fld.property with id := CreateIdUid id uid } }, none)
        | _ => (fld, some FErr.idParseFail)

/-- Embedding of `Field.ProcessAnnotations` (binding package): checks the
ignore marker first, then processes the id, name, date, index, unique and uid
keys in source order with Go early-return on the first error. -/
def ProcessAnnots (a : AnnMap) (fld : Field) : Field × Option FErr :=
  match annGet a (chars "-") with
  | some v =>
    if a.length ≠ 1 ∨ v ≠ [] then (fld, some FErr.ignoreMisuse)
    else ({ fld with isSkipped := true }, none)
  | none =>
    pstep (pstep (pstep (pstep (pstep (idBranch a fld) (nameBranch a)) (dateBranch a))
      (indexBranch a)) (uniqueBranch a)) (uidBranch a)

/-- C9 counterexample: applying the date tag to a property of the 32-bit
integer type — an integer type — does NOT succeed: `ProcessAnnotations`
returns an error, because the code demands exactly `PropertyTypeLong`. -/
theorem date_requires_long_counterexample :
    isIntegerType PropertyTypeInt = true ∧
    ProcessAnnots [(chars "date", [])]
      { name := [], isSkipped := false,
        property := { name := [], id := [], type := PropertyTypeInt, flags := 0,
                      indexId := none, uidRequest := false } }
      = ({ name := [], isSkipped := false,
           property := { name := [], id := [], type := PropertyTypeInt, flags := 0,
                         indexId := none, uidRequest := false } },
         some (FErr.dateNotLong PropertyTypeInt)) := ⟨rfl, rfl⟩

/-- C9 amended: the date tag is a refinement of the 64-bit integer type only:
on a property whose type is `PropertyTypeLong` it succeeds and rewrites the
type to `PropertyTypeDate`; on any other underlying type — including the other
integer variants — `ProcessAnnotations` returns an error and the property
(in particular its type) is left unchanged. -/
theorem date_annotation_refines_long (nm : Str) (sk : Bool) (p : Property) :
    (p.type = PropertyTypeLong →
      ProcessAnnots [(chars "date", [])] ⟨nm, sk, p⟩
        = (⟨nm, sk, { p with type := PropertyTypeDate }⟩, none)) ∧
    (p.type ≠ PropertyTypeLong →
      ProcessAnnots [(chars "date", [])] ⟨nm, sk, p⟩
        = (⟨nm, sk, p⟩, some (FErr.dateNotLong p.type))) := by
  have hdash : annGet [(chars "date", [])] (chars "-") = none := rfl
  have hidk : annGet [(chars "date", [])] (chars "id") = none := rfl
  have hnamek : annGet [(chars "date", [])] (chars "name") = none := rfl
  have hdatek : annGet [(chars "date", [])] (chars "date") = some [] := rfl
  have hindexk : annGet [(chars "date", [])] (chars "index") = none := rfl
  have huniquek : annGet [(chars "date", [])] (chars "unique") = none := rfl
  have huidk : annGet [(chars "date", [])] (chars "uid") = none := rfl
  constructor <;> intro h <;>
    simp [ProcessAnnots, pstep, idBranch, nameBranch, dateBranch, indexBranch,
      uniqueBranch, uidBranch, hdash, hidk, hnamek, hdatek, hindexk, huniquek, huidk, h]

/-- C9 witness: the amended theorem applied to a concrete long-typed property. -/
theorem date_annotation_refines_long_witness :
    ProcessAnnots [(chars "date", [])]
      { name := [], isSkipped := false,
        property := { name := [], id := [], type := PropertyTypeLong, flags := 0,
                      indexId := none, uidRequest := false } }
      = ({ name := [], isSkipped := false,
           property := { name := [], id := [], type := PropertyTypeDate, flags := 0,
                         indexId := none, uidRequest := false } }, none) :=
  (date_annotation_refines_long [] false
    { name := [], id := [], type := PropertyTypeLong, flags := 0,
      indexId := none, uidRequest := false }).1 rfl

/-- C10: a uid annotation with a non-empty numeric value rewrites exactly the
identifier of the property, to `CreateIdUid(previousId, requestedUid)` where
the previous id component (possibly zero) comes from the relaxed accessor; the
field's name, skip marker and every other property field are unchanged and no
error is returned. -/
theorem uid_annotation_rewrites_only_uid (nm : Str) (sk : Bool) (p : Property) (v : Str)
    (uid prevId : Nat) (hv : v ≠ []) (hp : parseUint v 64 = some uid)
    (hid : GetIdAllowZero p.id = Res.ok prevId) :
    ProcessAnnots [(chars "uid", v)] ⟨nm, sk, p⟩
      = (⟨nm, sk, { p with id := CreateIdUid prevId uid }⟩, none) := by
  have hdash : annGet [(chars "uid", v)] (chars "-") = none := by
    show (if chars "uid" = chars "-" then some v else annGet [] (chars "-")) = none
    rw [if_neg (by decide)]; rfl
  have hidk : annGet [(chars "uid", v)] (chars "id") = none := by
    show (if chars "uid" = chars "id" then some v else annGet [] (chars "id")) = none
    rw [if_neg (by decide)]; rfl
  have hnamek : annGet [(chars "uid", v)] (chars "name") = none := by
    show (if chars "uid" = chars "name" then some v else annGet [] (chars "name")) = none
    rw [if_neg (by decide)]; rfl
  have hdatek : annGet [(chars "uid", v)] (chars "date") = none := by
    show (if chars "uid" = chars "date" then some v else annGet [] (chars "date")) = none
    rw [if_neg (by decide)]; rfl
  have hindexk : annGet [(chars "uid", v)] (chars "index") = none := by
    show (if chars "uid" = chars "index" then some v else annGet [] (chars "index")) = none
    rw [if_neg (by decide)]; rfl
  have huniquek : annGet [(chars "uid", v)] (chars "unique") = none := by
    show (if chars "uid" = chars "unique" then some v else annGet [] (chars "unique")) = none
    rw [if_neg (by decide)]; rfl
  have huidk : annGet [(chars "uid", v)] (chars "uid") = some v := by
    show (if chars "uid" = chars "uid" then some v else annGet [] (chars "uid")) = some v
    rw [if_pos rfl]
  simp [ProcessAnnots, pstep, idBranch, nameBranch, dateBranch, indexBranch,
    uniqueBranch, uidBranch, hdash, hidk, hnamek, hdatek, hindexk, huniquek, huidk,
    hv, hp, hid]

/-- C10 witness: a property whose identifier has a (transiently) zero id
component and a concrete uid request `97`. -/
theorem uid_annotation_rewrites_only_uid_witness :
    ProcessAnnots [(chars "uid", chars "97")]
      { name := chars "x", isSkipped := false,
        property := { name := chars "x", id := chars "0:42", type := PropertyTypeLong,
                      flags := 0, indexId := none, uidRequest := false } }
      = ({ name := chars "x", isSkipped := false,
           property := { name := chars "x", id := CreateIdUid 0 97, type := PropertyTypeLong,
                         flags := 0, indexId := none, uidRequest := false } }, none) :=
  uid_annotation_rewrites_only_uid (chars "x") false
    { name := chars "x", id := chars "0:42", type := PropertyTypeLong, flags := 0,
      indexId := none, uidRequest := false } (chars "97") 97 0 (by decide) rfl rfl

/-! Embedding of the FlatBuffers schema reader (`schema-reader.go`).  The
input data is the structured content behind the generated `reflection`
accessors: a schema is a list of objects, an object a name and a list of
fields, a field a name and an optional type (the Go `field.Type(nil)` call can
return nil).  The FlatBuffers `BaseType` enum constants referenced by the
reader are not among the provided sources and are taken from the standard
FlatBuffers reflection schema. -/

def BaseTypeString : Nat := 13
def BaseTypeVector : Nat := 14
def BaseTypeByte : Nat := 3
def BaseTypeUByte : Nat := 4

structure FbType where
  baseType : Nat
  element : Nat
deriving DecidableEq

structure FbField where
  name : Str
  type : Option FbType
deriving DecidableEq

structure FbObject where
  name : Str
  fields : List FbField
deriving DecidableEq

structure FbSchema where
  objects : List FbObject
deriving DecidableEq

/-- A model entity as read by the schema reader (`modelinfo.Entity`):
name, `id:uid` identifier and properties. -/
structure REntity where
  name : Str
  id : Str
  properties : List Property
deriving DecidableEq

/-- Modelled from the spec: `modelinfo.CreateEntity(model, id, uid)` (missing
from src) creates an entity whose Identifier is the serialised pair. -/
def CreateEntity (id uid : Nat) : REntity :=
  { name := [], id := CreateIdUid id uid, properties := [] }

/-- Modelled from the spec: `modelinfo.CreateProperty(entity, id, uid)`
(missing from src) creates a property whose Identifier is the serialised
pair and which carries no other data yet. -/
def CreateProperty (id uid : Nat) : Property :=
  { name := [], id := CreateIdUid id uid, type := 0, flags := 0,
    indexId := none, uidRequest := false }

/-- Errors of the schema reader; one constructor per Go return site. -/
inductive SErr where
  | noType (fieldName : Str)
  | unsupportedVectorElement (el : Nat)
  | unsupportedType (bt : Nat)
deriving DecidableEq

/-- The type-resolution step of `readObjectField`: vectors of strings/bytes
map to the vector property types, anything else goes through the
`fbsTypeToObxType` map (passed as a parameter since its definition is not
among the provided sources; Go map lookup yields `0` for absent keys). -/
def resolvePropertyType (fbsToObx : Nat → Nat) (fbsType : FbType) : Except SErr Nat :=
  if fbsType.baseType = BaseTypeVector then
    if fbsType.element = BaseTypeString then .ok PropertyTypeStringVector
    else if fbsType.element = BaseTypeByte ∨ fbsType.element = BaseTypeUByte then
      .ok PropertyTypeByteVector
    else .error (.unsupportedVectorElement fbsType.element)
  else .ok (fbsToObx fbsType.baseType)

/-- Embedding of `fbSchemaReader.readObjectField`: creates a candidate
property with identifier `(0, 0)` carrying the field's name, resolves the
property type, rejects an unresolved (`0`) type, and appends the property to
the entity. -/
def readObjectField (fbsToObx : Nat → Nat) (entity : REntity) (field : FbField) :
    Except SErr REntity :=
  match field.type with
  | none => .error (.noType field.name)
  | some fbsType =>
    match resolvePropertyType fbsToObx fbsType with
    | .error e => .error e
    | .ok t =>
      if t = 0 then .error (.unsupportedType fbsType.baseType)
      else .ok { entity with properties :=
        entity.properties ++ [{ CreateProperty 0 0 with name := field.name, type := t }] }

/-- Embedding of `fbSchemaReader.readObject`: creates a candidate entity with
identifier `(0, 0)`, reads all fields into it, then appends it to the model's
entity list (here: returns the entity to append). -/
def readObject (fbsToObx : Nat → Nat) (object : FbObject) : Except SErr REntity :=
  object.fields.foldlM (fun e f => readObjectField fbsToObx e f)
    { CreateEntity 0 0 with name := object.name }

/-- Embedding of `fbSchemaReader.read`: reads every object of the schema,
appending the resulting entities to the model's entity list. -/
def readSchema (fbsToObx : Nat → Nat) (entities : List REntity) (schema : FbSchema) :
    Except SErr (List REntity) :=
  schema.objects.foldlM
    (fun es o =>
      match readObject fbsToObx o with
      | .error e => .error e
      | .ok entity => .ok (es ++ [entity]))
    entities

/-- Every property an entity accumulates during field reading keeps the unset
`0:0` identifier. -/
theorem readObjectField_id_unset (fbsToObx : Nat → Nat) (entity : REntity) (field : FbField)
    (entity' : REntity) (h : readObjectField fbsToObx entity field = .ok entity') :
    entity'.id = entity.id ∧ entity'.name = entity.name ∧
    ∀ p ∈ entity'.properties,
      p ∈ entity.properties ∨ (p.id = CreateIdUid 0 0 ∧ p.indexId = none) := by
  unfold readObjectField at h
  cases hft : field.type with
  | none => rw [hft] at h; exact absurd h (by simp)
  | some fbsType =>
    rw [hft] at h
    have h₂ : (match resolvePropertyType fbsToObx fbsType with
        | .error e => Except.error e
        | .ok t =>
          if t = 0 then Except.error (SErr.unsupportedType fbsType.baseType)
          else Except.ok { entity with properties :=
            entity.properties ++ [{ CreateProperty 0 0 with name := field.name, type := t }] })
        = Except.ok entity' := h
    cases hrt : resolvePropertyType fbsToObx fbsType with
    | error e => rw [hrt] at h₂; exact absurd h₂ (by simp)
    | ok t =>
      rw [hrt] at h₂
      have h₃ : (if t = 0 then Except.error (SErr.unsupportedType fbsType.baseType)
          else Except.ok { entity with properties :=
            entity.properties ++ [{ CreateProperty 0 0 with name := field.name, type := t }] })
          = Except.ok entity' := h₂
      split at h₃
      · exact absurd h₃ (by simp)
      · cases h₃
        refine ⟨rfl, rfl, fun p hp => ?_⟩
        simp only [List.mem_append, List.mem_singleton] at hp
        rcases hp with hp | hp
        · exact Or.inl hp
        · subst hp
          exact Or.inr ⟨rfl, rfl⟩

theorem readObject_id_unset (fbsToObx : Nat → Nat) (object : FbObject) (entity : REntity)
    (h : readObject fbsToObx object = .ok entity) :
    entity.id = CreateIdUid 0 0 ∧
    ∀ p ∈ entity.properties, p.id = CreateIdUid 0 0 ∧ p.indexId = none := by
  unfold readObject at h
  suffices hgen : ∀ (fs : List FbField) (e₀ e₁ : REntity),
      fs.foldlM (fun e f => readObjectField fbsToObx e f) e₀ = .ok e₁ →
      e₁.id = e₀.id ∧ ∀ p ∈ e₁.properties,
        p ∈ e₀.properties ∨ (p.id = CreateIdUid 0 0 ∧ p.indexId = none) by
    obtain ⟨hid, hprops⟩ := hgen object.fields _ entity h
    refine ⟨hid, fun p hp => ?_⟩
    rcases hprops p hp with hmem | hok
    · simp [CreateEntity] at hmem
    · exact hok
  intro fs
  induction fs with
  | nil =>
    intro e₀ e₁ h₀
    have h₁ : Except.ok e₀ = Except.ok e₁ := h₀
    cases h₁
    exact ⟨rfl, fun p hp => Or.inl hp⟩
  | cons f rest ih =>
    intro e₀ e₁ h₀
    rw [List.foldlM_cons] at h₀
    cases hf : readObjectField fbsToObx e₀ f with
    | error e =>
      rw [hf] at h₀
      have h₁ : (Except.error e : Except SErr REntity) = Except.ok e₁ := h₀
      exact absurd h₁ (by simp)
    | ok emid =>
      rw [hf] at h₀
      have h₁ : rest.foldlM (fun e f => readObjectField fbsToObx e f) emid = .ok e₁ := h₀
      obtain ⟨hid₁, hprops₁⟩ := readObjectField_id_unset fbsToObx e₀ f emid hf
      obtain ⟨hid₂, hprops₂⟩ := ih emid e₁ h₁
      refine ⟨hid₂.trans hid₁, fun p hp => ?_⟩
      rcases hprops₂ p hp with hmem | hok
      · exact hprops₁.2 p hmem
      · exact Or.inr hok

/-- C7: every candidate entity the schema reader appends to the model has the
unset identifier `0:0` (both components zero), and so does every candidate
property it reads — no identifier component (including index identifiers) is
assigned during parsing, for every schema and every type mapping. -/
theorem schema_reader_ids_unset (fbsToObx : Nat → Nat) (schema : FbSchema)
    (init result : List REntity) (h : readSchema fbsToObx init schema = .ok result) :
    ∃ added : List REntity, result = init ++ added ∧
      ∀ e ∈ added, e.id = CreateIdUid 0 0 ∧
        ∀ p ∈ e.properties, p.id = CreateIdUid 0 0 ∧ p.indexId = none := by
  unfold readSchema at h
  revert h
  induction schema.objects generalizing init with
  | nil =>
    intro h
    have h₁ : Except.ok init = Except.ok result := h
    cases h₁
    exact ⟨[], by simp⟩
  | cons o rest ih =>
    intro h
    rw [List.foldlM_cons] at h
    cases ho : readObject fbsToObx o with
    | error e =>
      rw [ho] at h
      have h₁ : (Except.error e : Except SErr (List REntity)) = Except.ok result := h
      exact absurd h₁ (by simp)
    | ok entity =>
      rw [ho] at h
      have h₁ : rest.foldlM
          (fun es o =>
            match readObject fbsToObx o with
            | .error e => Except.error e
            | .ok entity => Except.ok (es ++ [entity]))
          (init ++ [entity]) = .ok result := h
      obtain ⟨added, hres, hall⟩ := ih (init ++ [entity]) h₁
      refine ⟨entity :: added, by simpa using hres, fun e he => ?_⟩
      rcases List.mem_cons.mp he with rfl | he'
      · exact readObject_id_unset fbsToObx o e ho
      · exact hall e he'

/-- C7 witness: a concrete one-object, one-field schema read with a concrete
type mapping. -/
theorem schema_reader_ids_unset_witness :
    ∃ added : List REntity,
      [{ name := chars "Task", id := chars "0:0",
         properties := [{ name := chars "text", id := chars "0:0", type := 9,
                          flags := 0, indexId := none, uidRequest := false }] }] = [] ++ added ∧
      ∀ e ∈ added, e.id = CreateIdUid 0 0 ∧
        ∀ p ∈ e.properties, p.id = CreateIdUid 0 0 ∧ p.indexId = none :=
  schema_reader_ids_unset (fun bt => if bt = BaseTypeString then PropertyTypeString else 0)
    { objects := [{ name := chars "Task",
                    fields := [{ name := chars "text",
                                 type := some { baseType := BaseTypeString, element := 0 } }] }] }
    [] _ rfl

/-! Embedding of the generator driver (`Process`, `createBinding`,
`createModel`, `PathIsDirOrPattern` from the generator package).  The model
registry type (`model.ModelInfo`) and its methods `Validate`, `Finalize` and
`RemoveEntity` are not among the provided sources and are modelled from the
spec; `mergeBindingWithModelInfo` is likewise missing and is therefore a
parameter of the run, so the theorems hold for every merge behaviour.
External effects are parameters: the file system (directory test, input
files, loaded model), the clock, and the success of the cleanup and write
steps.  Event traces record the order of the externally visible steps. -/

/-- A registry entity (`model.Entity`) with the fields the embedded control
flow reads or writes, including the transient currently-present marker and
the presence of per-run meta information. -/
structure MEntity where
  name : Str
  id : Str
  lastPropertyId : Str
  properties : List Property
  currentlyPresent : Bool
  hasMeta : Bool
deriving DecidableEq

/-- The model registry (`model.ModelInfo`), shaped after the spec's Model
Registry: entities, retired uid sets, the two version fields and the
installed random source (identified with its seed state). -/
structure ModelInfo where
  entities : List MEntity
  retiredEntityUids : List Nat
  retiredPropertyUids : List Nat
  modelVersion : Nat
  minimumParserVersion : Nat
  rand : Nat
deriving DecidableEq

/-- Modelled from the spec: the generator's current model version constant
(`model.ModelVersion`, missing from src); its concrete value is irrelevant
to the claims. -/
def ModelVersion : Nat := 5

/-- Modelled from the spec: `ModelInfo.Validate` (missing from src) — load
time validation: malformed persisted identifiers are fatal (FormatError),
and since the version fields are monotonically non-decreasing, a file whose
versions exceed the generator's current `ModelVersion` is rejected rather
than downgraded. -/
def modelValidate (m : ModelInfo) : Bool :=
  m.entities.all (fun e => Validate e.id = Res.ok ()) &&
  m.modelVersion ≤ ModelVersion && m.minimumParserVersion ≤ ModelVersion

/-- Modelled from the spec: `ModelInfo.RemoveEntity` (missing from src) —
physically removes the entity from the registry, retiring its uid and,
recursively, its properties' uids; id slots are not reclaimed. -/
def ModelInfo.RemoveEntity (m : ModelInfo) (e : MEntity) : ModelInfo :=
  { m with
    entities := m.entities.erase e,
    retiredEntityUids := m.retiredEntityUids ++ [getUidSafe e.id],
    retiredPropertyUids := m.retiredPropertyUids ++ e.properties.map (fun p => getUidSafe p.id) }

/-- Modelled from the spec: recompute an entity's last-property-id as
max(existing, observed) — never decreasing. -/
def MEntity.recomputeLastPropertyId (e : MEntity) : MEntity :=
  let maxId := e.properties.foldl (fun acc p => max acc (getIdSafe p.id)) (getIdSafe e.lastPropertyId)
  { e with lastPropertyId := CreateIdUid maxId (getUidSafe e.lastPropertyId) }

/-- All uids of the registry — active entity and property uids plus the
retired sets — for the global uniqueness invariant. -/
def ModelInfo.allUids (m : ModelInfo) : List Nat :=
  m.entities.map (fun e => getUidSafe e.id) ++
  (m.entities.map (fun e => e.properties.map (fun p => getUidSafe p.id))).flatten ++
  m.retiredEntityUids ++ m.retiredPropertyUids

/-- Executable duplicate check. -/
def nodupCheck : List Nat → Bool
  | [] => true
  | x :: rest => !rest.contains x && nodupCheck rest

/-- Errors of the merge/finalize layer, named after the spec's error family. -/
inductive MErr where
  | duplicateUid
  | ambiguousMatch
  | duplicateIdentifier
  | missingIdProperty
  | otherErr (n : Nat)
deriving DecidableEq

/-- Modelled from the spec: `ModelInfo.Finalize` (missing from src) —
recomputes derived bookkeeping (each entity's last-property-id) and checks
the global uid-uniqueness invariant; it neither adds nor removes entities and
leaves the version fields and the random source untouched. -/
def ModelInfo.Finalize (m : ModelInfo) : ModelInfo × Option MErr :=
  let m' := { m with entities := m.entities.map MEntity.recomputeLastPropertyId }
  (m', if nodupCheck m'.allUids then none else some MErr.duplicateIdentifier)

/-- Externally visible events of one `Process` run, in execution order. -/
inductive Ev where
  | cleanup
  | mergeOk
  | mergeFail
  | finalizeOk
  | finalizeFail
  | writeBinding
  | writeModelInfo
  | writeModelBinding
deriving DecidableEq

/-- Errors returned by the embedded driver; one constructor per return site. -/
inductive GErr where
  | cleanFail
  | loadFail
  | invalidModel
  | parseFail
  | mergeFail (e : MErr)
  | finalizeFail (e : MErr)
  | writeBindingFail
  | writeModelFail
  | writeModelBindingFail
deriving DecidableEq

/-- One input file as seen by `createBinding`'s per-file callback: whether the
code generator recognises it as a source file, the `ParseSource` result
(`none` models a parse error) and whether writing its binding files
succeeds. -/
structure SrcFile where
  isSource : Bool
  parsed : Option ModelInfo
  writeOk : Bool

/-- The `Options` fields the embedded control flow reads. -/
structure GenOpts where
  inPath : Str
  rand : Option Nat

/-- The ambient environment of one `Process` run. -/
structure PEnv where
  isDir : Str → Bool
  goosWindows : Bool
  files : List SrcFile
  loaded : Option ModelInfo
  clock : Nat
  cleanOk : Bool
  writeModelOk : Bool
  writeModelBindingOk : Bool
  merge : ModelInfo → ModelInfo → ModelInfo × Option MErr

/-- Embedding of the `recursionSuffix` constant `"/..."`. -/
def recursionSuffix : Str := chars "/..."

/-- Go `strings.ContainsAny`. -/
def containsAny (s : Str) (cs : Str) : Bool := s.any (fun c => cs.contains c)

/-- Embedding of `PathIsDirOrPattern` (src): a recursion pattern, a glob
pattern (with backslash counting as a meta character outside windows), or an
existing directory. -/
def PathIsDirOrPattern (isDir : Str → Bool) (goosWindows : Bool) (path : Str) : Bool :=
  recursionSuffix.isSuffixOf path ||
  containsAny path (chars "*?[") ||
  (!goosWindows && containsAny path (chars "\\")) ||
  isDir path

/-- The meta-clearing loop at the top of the per-file callback: `entity.Meta
= nil` for every entity that carries meta information. -/
def clearMeta (m : ModelInfo) : ModelInfo :=
  { m with entities := m.entities.map (fun e => { e with hasMeta := false }) }

/-- The marking loop at the end of the per-file callback:
`entity.CurrentlyPresent = true` for every entity that carries meta
information. -/
def markPresent (m : ModelInfo) : ModelInfo :=
  let mark := fun (e : MEntity) => if e.hasMeta then { e with currentlyPresent := true } else e
  { m with entities := m.entities.map mark }

/-- Embedding of one iteration of `createBinding`'s per-file callback: skip
non-source files; clear the meta markers left by the previous iteration;
parse; merge; finalize; write the binding files; finally mark every entity
that carries meta information as currently present. -/
def createBindingStep (merge : ModelInfo → ModelInfo → ModelInfo × Option MErr)
    (m : ModelInfo) (f : SrcFile) : ModelInfo × Option GErr × List Ev :=
  if !f.isSource then (m, none, [])
  else
    match f.parsed with
    | none => (clearMeta m, some .parseFail, [])
    | some currentModel =>
      match merge currentModel (clearMeta m) with
      | (m₁, some e) => (m₁, some (.mergeFail e), [.mergeFail])
      | (m₁, none) =>
        match m₁.Finalize with
        | (m₂, some e) => (m₂, some (.finalizeFail e), [.mergeOk, .finalizeFail])
        | (m₂, none) =>
          if !f.writeOk then (m₂, some .writeBindingFail, [.mergeOk, .finalizeOk, .writeBinding])
          else (markPresent m₂, none, [.mergeOk, .finalizeOk, .writeBinding])

/-- Embedding of `createBinding` (src): the per-file callback over all input
files, stopping at the first error. -/
def createBinding (merge : ModelInfo → ModelInfo → ModelInfo × Option MErr)
    (m : ModelInfo) : List SrcFile → ModelInfo × Option GErr × List Ev
  | [] => (m, none, [])
  | f :: rest =>
    match createBindingStep merge m f with
    | (m', some e, evs) => (m', some e, evs)
    | (m', none, evs) =>
      match createBinding merge m' rest with
      | (m'', r, evs') => (m'', r, evs ++ evs')

/-- Embedding of `createModel` (src): only when the input path is a directory
or pattern, remove every entity not marked currently present and finalize;
then write the model-info JSON file and the model binding file. -/
def removeAbsent (m : ModelInfo) : ModelInfo :=
  (m.entities.filter (fun e => !e.currentlyPresent)).foldl ModelInfo.RemoveEntity m

def createModel (isPattern : Bool) (writeModelOk writeModelBindingOk : Bool)
    (m : ModelInfo) : ModelInfo × Option GErr × List Ev :=
  if isPattern then
    match (removeAbsent m).Finalize with
    | (m', some e) => (m', some (.finalizeFail e), [.finalizeFail])
    | (m', none) =>
      if !writeModelOk then (m', some .writeModelFail, [.finalizeOk, .writeModelInfo])
      else if !writeModelBindingOk then
        (m', some .writeModelBindingFail, [.finalizeOk, .writeModelInfo, .writeModelBinding])
      else (m', none, [.finalizeOk, .writeModelInfo, .writeModelBinding])
  else
    if !writeModelOk then (m, some .writeModelFail, [.writeModelInfo])
    else if !writeModelBindingOk then
      (m, some .writeModelBindingFail, [.writeModelInfo, .writeModelBinding])
    else (m, none, [.writeModelInfo, .writeModelBinding])

/-- Modelled from the spec: a deterministic stand-in for
`rand.New(rand.NewSource(seed))` — a random source is identified with its
seed state. -/
def newSeededRand (seed : Nat) : Nat := seed

/-- Embedding of the `options.Rand == nil` default (Process): use the
caller's source if supplied, otherwise create one seeded from the clock. -/
def resolveRand (optRand : Option Nat) (clock : Nat) : Nat :=
  match optRand with
  | some r => r
  | none => newSeededRand clock

/-- Embedding of `Process` (src): implicit cleanup for directory/pattern
inputs, random-source resolution, model load, installation of the random
source on the loaded model, load-time validation, version upgrade to the
current `ModelVersion`, then `createBinding` over all input files and
`createModel`.  File-system-only steps with no effect on the model state
(`MkdirAll`, the model-info path defaulting) are elided.  The final model
state is returned even on error, mirroring Go's in-place mutation. -/
def Process (opts : GenOpts) (env : PEnv) : Option ModelInfo × Option GErr × List Ev :=
  let isPattern := PathIsDirOrPattern env.isDir env.goosWindows opts.inPath
  let cleanEvs := if isPattern then [Ev.cleanup] else []
  if isPattern && !env.cleanOk then (none, some .cleanFail, cleanEvs)
  else
    let rand := resolveRand opts.rand env.clock
    match env.loaded with
    | none => (none, some .loadFail, cleanEvs)
    | some m =>
      let m₁ : ModelInfo := { m with rand := rand }
      if !modelValidate m₁ then (some m₁, some .invalidModel, cleanEvs)
      else
        let m₂ : ModelInfo :=
          { m₁ with minimumParserVersion := ModelVersion, modelVersion := ModelVersion }
        match createBinding env.merge m₂ env.files with
        | (m₃, some e, evs) => (some m₃, some e, cleanEvs ++ evs)
        | (m₃, none, evs) =>
          match createModel isPattern env.writeModelOk env.writeModelBindingOk m₃ with
          | (m₄, r, evs') => (some m₄, r, cleanEvs ++ evs ++ evs')

/-! Facts about the entity-removal loop of `createModel`. -/

theorem foldl_remove_entities (r : List MEntity) :
    ∀ m : ModelInfo, (r.foldl ModelInfo.RemoveEntity m).entities
      = r.foldl (fun es e => es.erase e) m.entities := by
  induction r with
  | nil => intro m; rfl
  | cons a t ih =>
    intro m
    rw [List.foldl_cons, List.foldl_cons, ih]
    rfl

theorem eraseFold_of_ne (a : MEntity) (r : List MEntity) :
    ∀ t : List MEntity, (∀ e ∈ r, e ≠ a) →
      r.foldl (fun es e => es.erase e) (a :: t) = a :: r.foldl (fun es e => es.erase e) t := by
  induction r with
  | nil => intro t _; rfl
  | cons e r' ih =>
    intro t h
    rw [List.foldl_cons, List.foldl_cons]
    have hne : ¬ (a == e) = true := by
      simpa using (h e (by simp)).symm
    rw [List.erase_cons_tail hne]
    exact ih (t.erase e) (fun x hx => h x (by simp [hx]))

theorem erase_filter_present (l : List MEntity) :
    (l.filter (fun e => !e.currentlyPresent)).foldl (fun es e => es.erase e) l
      = l.filter (fun e => e.currentlyPresent) := by
  induction l with
  | nil => rfl
  | cons a t ih =>
    by_cases ha : a.currentlyPresent
    · rw [List.filter_cons_of_neg (by simp [ha]), List.filter_cons_of_pos (by simp [ha])]
      have hstep : (t.filter (fun e => !e.currentlyPresent)).foldl (fun es e => es.erase e) (a :: t)
          = a :: (t.filter (fun e => !e.currentlyPresent)).foldl (fun es e => es.erase e) t := by
        apply eraseFold_of_ne
        intro e he heq
        have hq : (!e.currentlyPresent) = true := by
          simpa using (List.mem_filter.mp he).2
        rw [heq] at hq
        simp [ha] at hq
      rw [hstep, ih]
    · rw [List.filter_cons_of_pos (by simp [ha]), List.filter_cons_of_neg (by simp [ha]),
        List.foldl_cons, List.erase_cons_head, ih]

/-- C2: entities with a false currently-present marker are physically removed
by `createModel` only when `PathIsDirOrPattern` holds for the input path: for
a single-file run the entity list is returned untouched (the removal loop is
not executed), while for a directory/pattern run the resulting entity list is
exactly the currently-present entities (with the finalizer's recomputed
last-property-id bookkeeping). -/
theorem createModel_removes_only_for_patterns (isDir : Str → Bool) (gw : Bool) (path : Str)
    (w₁ w₂ : Bool) (m : ModelInfo) :
    (PathIsDirOrPattern isDir gw path = false →
      (createModel (PathIsDirOrPattern isDir gw path) w₁ w₂ m).1.entities = m.entities) ∧
    (PathIsDirOrPattern isDir gw path = true →
      (createModel (PathIsDirOrPattern isDir gw path) w₁ w₂ m).1.entities
        = (m.entities.filter (fun e => e.currentlyPresent)).map MEntity.recomputeLastPropertyId) := by
  constructor <;> intro hp <;> rw [hp] <;> unfold createModel
  · by_cases h1 : w₁ <;> by_cases h2 : w₂ <;> simp [h1, h2]
  · have hbase : (removeAbsent m).entities
        = m.entities.filter (fun e => e.currentlyPresent) := by
      unfold removeAbsent
      rw [foldl_remove_entities]
      exact erase_filter_present m.entities
    rcases hfin : (removeAbsent m).Finalize with ⟨m', opt⟩
    have hm' : m'.entities
        = (m.entities.filter (fun e => e.currentlyPresent)).map MEntity.recomputeLastPropertyId := by
      have h1 : ((removeAbsent m).Finalize).1 = m' := by rw [hfin]
      rw [← h1, ← hbase]
      rfl
    cases opt <;> by_cases h1 : w₁ <;> by_cases h2 : w₂ <;> simp [h1, h2, hm', hfin]

/-- Shared concrete sample data for the driver-level witnesses. -/
def sampleEntity : MEntity :=
  { name := chars "A", id := chars "1:9", lastPropertyId := chars "0:0",
    properties := [], currentlyPresent := false, hasMeta := false }

def sampleModel : ModelInfo :=
  { entities := [sampleEntity], retiredEntityUids := [], retiredPropertyUids := [],
    modelVersion := 0, minimumParserVersion := 0, rand := 0 }

/-- C2 witness: a plain single-file path is no directory or pattern, and
`createModel` keeps the absent-marked entity. -/
theorem createModel_removes_only_for_patterns_witness :
    (createModel (PathIsDirOrPattern (fun _ => false) false (chars "task.fbs")) true true
      sampleModel).1.entities = sampleModel.entities :=
  (createModel_removes_only_for_patterns (fun _ => false) false (chars "task.fbs") true true
    sampleModel).1 (by decide)

/-! Trace facts: merge/finalize failures stop the run before the model-info
write is reached. -/

theorem createBindingStep_trace (merge : ModelInfo → ModelInfo → ModelInfo × Option MErr)
    (m : ModelInfo) (f : SrcFile) (m' : ModelInfo) (r : Option GErr) (evs : List Ev)
    (h : createBindingStep merge m f = (m', r, evs)) :
    Ev.writeModelInfo ∉ evs ∧
    (Ev.mergeFail ∈ evs → ∃ e, r = some (GErr.mergeFail e)) ∧
    (Ev.finalizeFail ∈ evs → ∃ e, r = some (GErr.finalizeFail e)) ∧
    (r = none → Ev.mergeFail ∉ evs ∧ Ev.finalizeFail ∉ evs) := by
  unfold createBindingStep at h
  split at h
  · cases h
    exact ⟨by simp, by simp, by simp, fun _ => by simp⟩
  · cases hp : f.parsed with
    | none =>
      rw [hp] at h
      have h₂ : (clearMeta m, some GErr.parseFail, ([] : List Ev)) = (m', r, evs) := h
      cases h₂
      exact ⟨by simp, by simp, by simp, fun hr => by simp at hr⟩
    | some currentModel =>
      rw [hp] at h
      have h₂ : (match merge currentModel (clearMeta m) with
          | (m₁, some e) => (m₁, some (GErr.mergeFail e), [Ev.mergeFail])
          | (m₁, none) =>
            match m₁.Finalize with
            | (m₂, some e) => (m₂, some (GErr.finalizeFail e), [Ev.mergeOk, Ev.finalizeFail])
            | (m₂, none) =>
              if !f.writeOk then
                (m₂, some GErr.writeBindingFail, [Ev.mergeOk, Ev.finalizeOk, Ev.writeBinding])
              else (markPresent m₂, none, [Ev.mergeOk, Ev.finalizeOk, Ev.writeBinding]))
          = (m', r, evs) := h
      rcases hm : merge currentModel (clearMeta m) with ⟨m₁, optM⟩
      rw [hm] at h₂
      cases optM with
      | some e =>
        have h₃ : (m₁, some (GErr.mergeFail e), [Ev.mergeFail]) = (m', r, evs) := h₂
        cases h₃
        exact ⟨by simp, fun _ => ⟨e, rfl⟩, by simp, fun hr => by simp at hr⟩
      | none =>
        have h₃ : (match m₁.Finalize with
            | (m₂, some e) => (m₂, some (GErr.finalizeFail e), [Ev.mergeOk, Ev.finalizeFail])
            | (m₂, none) =>
              if !f.writeOk then
                (m₂, some GErr.writeBindingFail, [Ev.mergeOk, Ev.finalizeOk, Ev.writeBinding])
              else (markPresent m₂, none, [Ev.mergeOk, Ev.finalizeOk, Ev.writeBinding]))
            = (m', r, evs) := h₂
        rcases hf : m₁.Finalize with ⟨m₂, optF⟩
        rw [hf] at h₃
        cases optF with
        | some e =>
          have h₄ : (m₂, some (GErr.finalizeFail e), [Ev.mergeOk, Ev.finalizeFail])
              = (m', r, evs) := h₃
          cases h₄
          exact ⟨by simp, by simp, fun _ => ⟨e, rfl⟩, fun hr => by simp at hr⟩
        | none =>
          have h₄ : (if !f.writeOk then
              (m₂, some GErr.writeBindingFail, [Ev.mergeOk, Ev.finalizeOk, Ev.writeBinding])
              else (markPresent m₂, (none : Option GErr),
                [Ev.mergeOk, Ev.finalizeOk, Ev.writeBinding])) = (m', r, evs) := h₃
          by_cases hw : f.writeOk
          · rw [if_neg (by simp [hw])] at h₄
            cases h₄
            exact ⟨by simp, by simp, by simp, fun _ => ⟨by simp, by simp⟩⟩
          · rw [if_pos (by simp [hw])] at h₄
            cases h₄
            exact ⟨by simp, by simp, by simp, fun hr => by simp at hr⟩

theorem createBinding_trace (merge : ModelInfo → ModelInfo → ModelInfo × Option MErr)
    (files : List SrcFile) :
    ∀ (m m' : ModelInfo) (r : Option GErr) (evs : List Ev),
      createBinding merge m files = (m', r, evs) →
      Ev.writeModelInfo ∉ evs ∧
      (Ev.mergeFail ∈ evs → ∃ e, r = some (GErr.mergeFail e)) ∧
      (Ev.finalizeFail ∈ evs → ∃ e, r = some (GErr.finalizeFail e)) ∧
      (r = none → Ev.mergeFail ∉ evs ∧ Ev.finalizeFail ∉ evs) := by
  induction files with
  | nil =>
    intro m m' r evs h
    have h₂ : (m, (none : Option GErr), ([] : List Ev)) = (m', r, evs) := h
    cases h₂
    exact ⟨by simp, by simp, by simp, fun _ => by simp⟩
  | cons f rest ih =>
    intro m m' r evs h
    unfold createBinding at h
    rcases hs : createBindingStep merge m f with ⟨ms, rs, evss⟩
    rw [hs] at h
    obtain ⟨hw, hmg, hfz, hok⟩ := createBindingStep_trace merge m f ms rs evss hs
    cases rs with
    | some e =>
      have h₂ : (ms, some e, evss) = (m', r, evs) := h
      cases h₂
      exact ⟨hw, hmg, hfz, fun hr => by simp at hr⟩
    | none =>
      rcases hrec : createBinding merge ms rest with ⟨m₂, r₂, evs₂⟩
      have h₂ : (match createBinding merge ms rest with
          | (m'', r', evs') => (m'', r', evss ++ evs')) = (m', r, evs) := h
      rw [hrec] at h₂
      have h₃ : (m₂, r₂, evss ++ evs₂) = (m', r, evs) := h₂
      obtain rfl : r = r₂ := (congrArg (fun t => t.2.1) h₃).symm
      obtain rfl : evs = evss ++ evs₂ := (congrArg (fun t => t.2.2) h₃).symm
      obtain ⟨hnomerge, hnofin⟩ := hok rfl
      obtain ⟨hw', hmg', hfz', hok'⟩ := ih ms m₂ r evs₂ hrec
      refine ⟨?_, ?_, ?_, ?_⟩
      · simp only [List.mem_append, not_or]
        exact ⟨hw, hw'⟩
      · intro hx
        rcases List.mem_append.mp hx with hx | hx
        · exact absurd hx hnomerge
        · exact hmg' hx
      · intro hx
        rcases List.mem_append.mp hx with hx | hx
        · exact absurd hx hnofin
        · exact hfz' hx
      · intro hr
        obtain ⟨h₁, h₂⟩ := hok' hr
        constructor <;> simp only [List.mem_append, not_or]
        · exact ⟨hnomerge, h₁⟩
        · exact ⟨hnofin, h₂⟩

theorem createModel_trace (p w₁ w₂ : Bool) (m m' : ModelInfo) (r : Option GErr)
    (evs : List Ev) (h : createModel p w₁ w₂ m = (m', r, evs)) :
    Ev.mergeFail ∉ evs ∧
    (Ev.finalizeFail ∈ evs →
      Ev.writeModelInfo ∉ evs ∧ ∃ e, r = some (GErr.finalizeFail e)) := by
  unfold createModel at h
  split at h
  · rcases hf : (removeAbsent m).Finalize with ⟨m₂, optF⟩
    rw [hf] at h
    cases optF with
    | some e =>
      have h₂ : (m₂, some (GErr.finalizeFail e), [Ev.finalizeFail]) = (m', r, evs) := h
      cases h₂
      exact ⟨by simp, fun _ => ⟨by simp, e, rfl⟩⟩
    | none =>
      have h₂ : (if !w₁ then (m₂, some GErr.writeModelFail, [Ev.finalizeOk, Ev.writeModelInfo])
          else if !w₂ then (m₂, some GErr.writeModelBindingFail,
            [Ev.finalizeOk, Ev.writeModelInfo, Ev.writeModelBinding])
          else (m₂, (none : Option GErr),
            [Ev.finalizeOk, Ev.writeModelInfo, Ev.writeModelBinding])) = (m', r, evs) := h
      by_cases h1 : w₁
      · rw [if_neg (by simp [h1])] at h₂
        by_cases h2 : w₂
        · rw [if_neg (by simp [h2])] at h₂
          cases h₂
          exact ⟨by simp, fun hx => by simp at hx⟩
        · rw [if_pos (by simp [h2])] at h₂
          cases h₂
          exact ⟨by simp, fun hx => by simp at hx⟩
      · rw [if_pos (by simp [h1])] at h₂
        cases h₂
        exact ⟨by simp, fun hx => by simp at hx⟩
  · by_cases h1 : w₁
    · rw [if_neg (by simp [h1])] at h
      by_cases h2 : w₂
      · rw [if_neg (by simp [h2])] at h
        have h₂ : (m, (none : Option GErr),
            [Ev.writeModelInfo, Ev.writeModelBinding]) = (m', r, evs) := h
        cases h₂
        exact ⟨by simp, fun hx => by simp at hx⟩
      · rw [if_pos (by simp [h2])] at h
        have h₂ : (m, some GErr.writeModelBindingFail,
            [Ev.writeModelInfo, Ev.writeModelBinding]) = (m', r, evs) := h
        cases h₂
        exact ⟨by simp, fun hx => by simp at hx⟩
    · rw [if_pos (by simp [h1])] at h
      have h₂ : (m, some GErr.writeModelFail, [Ev.writeModelInfo]) = (m', r, evs) := h
      cases h₂
      exact ⟨by simp, fun hx => by simp at hx⟩

/-- C3: in every run of `Process`, for every environment and every behaviour
of the (externally supplied) merge function, if a merge or a finalize step
fails then `Process` returns that error and the `modelInfo.Write` call is
never reached — the persisted model file is not written mid-pass or after a
failed pass. -/
theorem process_write_only_after_success (opts : GenOpts) (env : PEnv)
    (mo : Option ModelInfo) (r : Option GErr) (evs : List Ev)
    (h : Process opts env = (mo, r, evs)) :
    (Ev.mergeFail ∈ evs → Ev.writeModelInfo ∉ evs ∧ ∃ e, r = some (GErr.mergeFail e)) ∧
    (Ev.finalizeFail ∈ evs → Ev.writeModelInfo ∉ evs ∧ ∃ e, r = some (GErr.finalizeFail e)) := by
  simp only [Process] at h
  set cEvs := (if PathIsDirOrPattern env.isDir env.goosWindows opts.inPath
      then [Ev.cleanup] else []) with hcdef
  have hcm : ∀ ev ∈ cEvs, ev = Ev.cleanup := by
    rw [hcdef]; split <;> simp
  have hnc : Ev.mergeFail ∉ cEvs ∧ Ev.finalizeFail ∉ cEvs ∧ Ev.writeModelInfo ∉ cEvs := by
    refine ⟨fun hx => ?_, fun hx => ?_, fun hx => ?_⟩ <;> cases hcm _ hx
  split at h
  · obtain rfl : evs = cEvs := (congrArg (fun t => t.2.2) h).symm
    obtain rfl : r = some GErr.cleanFail := (congrArg (fun t => t.2.1) h).symm
    exact ⟨fun hx => absurd hx hnc.1, fun hx => absurd hx hnc.2.1⟩
  · cases hl : env.loaded with
    | none =>
      rw [hl] at h
      have h₂ : ((none : Option ModelInfo), some GErr.loadFail, cEvs) = (mo, r, evs) := h
      obtain rfl : evs = cEvs := (congrArg (fun t => t.2.2) h₂).symm
      obtain rfl : r = some GErr.loadFail := (congrArg (fun t => t.2.1) h₂).symm
      exact ⟨fun hx => absurd hx hnc.1, fun hx => absurd hx hnc.2.1⟩
    | some m =>
      rw [hl] at h
      have h₂ : (if !modelValidate { m with rand := resolveRand opts.rand env.clock } then ((some { m with rand := resolveRand opts.rand env.clock } : Option ModelInfo), some GErr.invalidModel, cEvs) else match createBinding env.merge { m with rand := resolveRand opts.rand env.clock, minimumParserVersion := ModelVersion, modelVersion := ModelVersion } env.files with | (m₃, some e, evsB) => (some m₃, some e, cEvs ++ evsB) | (m₃, none, evsB) => match createModel (PathIsDirOrPattern env.isDir env.goosWindows opts.inPath) env.writeModelOk env.writeModelBindingOk m₃ with | (m₄, r₄, evs₄) => (some m₄, r₄, cEvs ++ evsB ++ evs₄)) = (mo, r, evs) := h
      split at h₂
      · obtain rfl : evs = cEvs := (congrArg (fun t => t.2.2) h₂).symm
        obtain rfl : r = some GErr.invalidModel := (congrArg (fun t => t.2.1) h₂).symm
        exact ⟨fun hx => absurd hx hnc.1, fun hx => absurd hx hnc.2.1⟩
      · rcases hcb : createBinding env.merge { m with rand := resolveRand opts.rand env.clock, minimumParserVersion := ModelVersion, modelVersion := ModelVersion } env.files with ⟨m₃, rb, evsB⟩
        rw [hcb] at h₂
        obtain ⟨hwB, hmgB, hfzB, hokB⟩ := createBinding_trace env.merge env.files _ m₃ rb evsB hcb
        cases rb with
        | some e =>
          have h₃ : ((some m₃ : Option ModelInfo), some e, cEvs ++ evsB) = (mo, r, evs) := h₂
          obtain rfl : evs = cEvs ++ evsB := (congrArg (fun t => t.2.2) h₃).symm
          obtain rfl : r = some e := (congrArg (fun t => t.2.1) h₃).symm
          constructor
          · intro hx
            rcases List.mem_append.mp hx with hx | hx
            · exact absurd hx hnc.1
            · refine ⟨?_, hmgB hx⟩
              simp only [List.mem_append, not_or]
              exact ⟨hnc.2.2, hwB⟩
          · intro hx
            rcases List.mem_append.mp hx with hx | hx
            · exact absurd hx hnc.2.1
            · refine ⟨?_, hfzB hx⟩
              simp only [List.mem_append, not_or]
              exact ⟨hnc.2.2, hwB⟩
        | none =>
          have h₂b : ((some (createModel (PathIsDirOrPattern env.isDir env.goosWindows opts.inPath) env.writeModelOk env.writeModelBindingOk m₃).1 : Option ModelInfo), (createModel (PathIsDirOrPattern env.isDir env.goosWindows opts.inPath) env.writeModelOk env.writeModelBindingOk m₃).2.1, cEvs ++ evsB ++ (createModel (PathIsDirOrPattern env.isDir env.goosWindows opts.inPath) env.writeModelOk env.writeModelBindingOk m₃).2.2) = (mo, r, evs) := h₂
          rcases hcmod : createModel (PathIsDirOrPattern env.isDir env.goosWindows opts.inPath) env.writeModelOk env.writeModelBindingOk m₃ with ⟨m₄, r₄, evs₄⟩
          rw [hcmod] at h₂b
          have h₃ : ((some m₄ : Option ModelInfo), r₄, cEvs ++ evsB ++ evs₄) = (mo, r, evs) := h₂b
          obtain rfl : evs = cEvs ++ evsB ++ evs₄ := (congrArg (fun t => t.2.2) h₃).symm
          obtain rfl : r = r₄ := (congrArg (fun t => t.2.1) h₃).symm
          obtain ⟨hnomergeB, hnofinB⟩ := hokB rfl
          obtain ⟨hnomergeM, hfinM⟩ := createModel_trace _ _ _ m₃ m₄ r evs₄ hcmod
          constructor
          · intro hx
            rcases List.mem_append.mp hx with hx | hx
            · rcases List.mem_append.mp hx with hx | hx
              · exact absurd hx hnc.1
              · exact absurd hx hnomergeB
            · exact absurd hx hnomergeM
          · intro hx
            have hx₄ : Ev.finalizeFail ∈ evs₄ := by
              rcases List.mem_append.mp hx with hx | hx
              · rcases List.mem_append.mp hx with hx | hx
                · exact absurd hx hnc.2.1
                · exact absurd hx hnofinB
              · exact hx
            obtain ⟨hwM, e, he⟩ := hfinM hx₄
            refine ⟨?_, e, he⟩
            simp only [List.mem_append, not_or]
            exact ⟨⟨hnc.2.2, hwB⟩, hwM⟩

/-- A concrete driver environment whose merge step always fails. -/
def envMergeFails : PEnv :=
  { isDir := fun _ => false, goosWindows := false,
    files := [{ isSource := true, parsed := some sampleModel, writeOk := true }],
    loaded := some sampleModel, clock := 0, cleanOk := true,
    writeModelOk := true, writeModelBindingOk := true,
    merge := fun _ mm => (mm, some MErr.ambiguousMatch) }

/-- C3 witness: a concrete run whose merge step fails — the returned error is
that merge failure and the model-info write event never occurs. -/
theorem process_write_only_after_success_witness :
    Ev.writeModelInfo ∉ (Process { inPath := chars "a.fbs", rand := some 7 } envMergeFails).2.2 ∧
    ∃ e, (Process { inPath := chars "a.fbs", rand := some 7 } envMergeFails).2.1
      = some (GErr.mergeFail e) :=
  (process_write_only_after_success { inPath := chars "a.fbs", rand := some 7 } envMergeFails
    _ _ _ rfl).1 (by decide)

/-! Preservation of the random source and the version fields through the
driver: the merge function is abstract, so its preservation of these fields
is a hypothesis of the claims that need it. -/

/-- The fields of the registry that the per-file pipeline must not touch:
the random source and both version fields. -/
def coreFields (m : ModelInfo) : Nat × Nat × Nat :=
  (m.rand, m.modelVersion, m.minimumParserVersion)

theorem coreFields_foldl_remove (r : List MEntity) :
    ∀ m : ModelInfo, coreFields (r.foldl ModelInfo.RemoveEntity m) = coreFields m := by
  induction r with
  | nil => intro m; rfl
  | cons a t ih =>
    intro m
    rw [List.foldl_cons, ih]
    rfl

theorem createBindingStep_core (merge : ModelInfo → ModelInfo → ModelInfo × Option MErr)
    (hm : ∀ c mm, coreFields ((merge c mm).1) = coreFields mm)
    (m : ModelInfo) (f : SrcFile) (m' : ModelInfo) (r : Option GErr) (evs : List Ev)
    (h : createBindingStep merge m f = (m', r, evs)) : coreFields m' = coreFields m := by
  unfold createBindingStep at h
  split at h
  · obtain rfl : m' = m := (congrArg (fun t => t.1) h).symm
    rfl
  · cases hp : f.parsed with
    | none =>
      rw [hp] at h
      have h₂ : (clearMeta m, some GErr.parseFail, ([] : List Ev)) = (m', r, evs) := h
      obtain rfl : m' = clearMeta m := (congrArg (fun t => t.1) h₂).symm
      rfl
    | some c =>
      rw [hp] at h
      have h₂ : (match merge c (clearMeta m) with
          | (m₁, some e) => (m₁, some (GErr.mergeFail e), [Ev.mergeFail])
          | (m₁, none) =>
            match m₁.Finalize with
            | (m₂, some e) => (m₂, some (GErr.finalizeFail e), [Ev.mergeOk, Ev.finalizeFail])
            | (m₂, none) =>
              if !f.writeOk then
                (m₂, some GErr.writeBindingFail, [Ev.mergeOk, Ev.finalizeOk, Ev.writeBinding])
              else (markPresent m₂, none, [Ev.mergeOk, Ev.finalizeOk, Ev.writeBinding]))
          = (m', r, evs) := h
      rcases hmg : merge c (clearMeta m) with ⟨m₁, optM⟩
      rw [hmg] at h₂
      have hc₁ : coreFields m₁ = coreFields m := by
        have hx := hm c (clearMeta m)
        rw [hmg] at hx
        exact hx
      cases optM with
      | some e =>
        have h₃ : (m₁, some (GErr.mergeFail e), [Ev.mergeFail]) = (m', r, evs) := h₂
        obtain rfl : m' = m₁ := (congrArg (fun t => t.1) h₃).symm
        exact hc₁
      | none =>
        have h₃ : (match m₁.Finalize with
            | (m₂, some e) => (m₂, some (GErr.finalizeFail e), [Ev.mergeOk, Ev.finalizeFail])
            | (m₂, none) =>
              if !f.writeOk then
                (m₂, some GErr.writeBindingFail, [Ev.mergeOk, Ev.finalizeOk, Ev.writeBinding])
              else (markPresent m₂, none, [Ev.mergeOk, Ev.finalizeOk, Ev.writeBinding]))
            = (m', r, evs) := h₂
        rcases hf : m₁.Finalize with ⟨m₂, optF⟩
        rw [hf] at h₃
        have hc₂ : coreFields m₂ = coreFields m := by
          have hx : coreFields (m₁.Finalize).1 = coreFields m₁ := rfl
          rw [hf] at hx
          exact hx.trans hc₁
        cases optF with
        | some e =>
          have h₄ : (m₂, some (GErr.finalizeFail e), [Ev.mergeOk, Ev.finalizeFail])
              = (m', r, evs) := h₃
          obtain rfl : m' = m₂ := (congrArg (fun t => t.1) h₄).symm
          exact hc₂
        | none =>
          have h₄ : (if !f.writeOk then
              (m₂, some GErr.writeBindingFail, [Ev.mergeOk, Ev.finalizeOk, Ev.writeBinding])
              else (markPresent m₂, (none : Option GErr),
                [Ev.mergeOk, Ev.finalizeOk, Ev.writeBinding])) = (m', r, evs) := h₃
          by_cases hw : f.writeOk
          · rw [if_neg (by simp [hw])] at h₄
            obtain rfl : m' = markPresent m₂ := (congrArg (fun t => t.1) h₄).symm
            exact hc₂
          · rw [if_pos (by simp [hw])] at h₄
            obtain rfl : m' = m₂ := (congrArg (fun t => t.1) h₄).symm
            exact hc₂

theorem createBinding_core (merge : ModelInfo → ModelInfo → ModelInfo × Option MErr)
    (hm : ∀ c mm, coreFields ((merge c mm).1) = coreFields mm) (files : List SrcFile) :
    ∀ (m m' : ModelInfo) (r : Option GErr) (evs : List Ev),
      createBinding merge m files = (m', r, evs) → coreFields m' = coreFields m := by
  induction files with
  | nil =>
    intro m m' r evs h
    have h₂ : (m, (none : Option GErr), ([] : List Ev)) = (m', r, evs) := h
    obtain rfl : m' = m := (congrArg (fun t => t.1) h₂).symm
    rfl
  | cons f rest ih =>
    intro m m' r evs h
    unfold createBinding at h
    rcases hs : createBindingStep merge m f with ⟨ms, rs, evss⟩
    rw [hs] at h
    have hcs := createBindingStep_core merge hm m f ms rs evss hs
    cases rs with
    | some e =>
      have h₂ : (ms, some e, evss) = (m', r, evs) := h
      obtain rfl : m' = ms := (congrArg (fun t => t.1) h₂).symm
      exact hcs
    | none =>
      have h₂ : (match createBinding merge ms rest with
          | (m'', r', evs') => (m'', r', evss ++ evs')) = (m', r, evs) := h
      rcases hrec : createBinding merge ms rest with ⟨m₂, r₂, evs₂⟩
      rw [hrec] at h₂
      have h₃ : (m₂, r₂, evss ++ evs₂) = (m', r, evs) := h₂
      obtain rfl : m' = m₂ := (congrArg (fun t => t.1) h₃).symm
      exact (ih ms m' r₂ evs₂ hrec).trans hcs

theorem createModel_core (p w₁ w₂ : Bool) (m m' : ModelInfo) (r : Option GErr)
    (evs : List Ev) (h : createModel p w₁ w₂ m = (m', r, evs)) :
    coreFields m' = coreFields m := by
  unfold createModel at h
  split at h
  · rcases hf : (removeAbsent m).Finalize with ⟨m₂, optF⟩
    rw [hf] at h
    have hc₂ : coreFields m₂ = coreFields m := by
      have hx : coreFields ((removeAbsent m).Finalize).1 = coreFields (removeAbsent m) := rfl
      rw [hf] at hx
      refine hx.trans ?_
      unfold removeAbsent
      exact coreFields_foldl_remove _ m
    cases optF with
    | some e =>
      have h₂ : (m₂, some (GErr.finalizeFail e), [Ev.finalizeFail]) = (m', r, evs) := h
      obtain rfl : m' = m₂ := (congrArg (fun t => t.1) h₂).symm
      exact hc₂
    | none =>
      have h₂ : (if !w₁ then (m₂, some GErr.writeModelFail, [Ev.finalizeOk, Ev.writeModelInfo])
          else if !w₂ then (m₂, some GErr.writeModelBindingFail,
            [Ev.finalizeOk, Ev.writeModelInfo, Ev.writeModelBinding])
          else (m₂, (none : Option GErr),
            [Ev.finalizeOk, Ev.writeModelInfo, Ev.writeModelBinding])) = (m', r, evs) := h
      by_cases hw1 : w₁
      · rw [if_neg (by simp [hw1])] at h₂
        by_cases hw2 : w₂
        · rw [if_neg (by simp [hw2])] at h₂
          obtain rfl : m' = m₂ := (congrArg (fun t => t.1) h₂).symm
          exact hc₂
        · rw [if_pos (by simp [hw2])] at h₂
          obtain rfl : m' = m₂ := (congrArg (fun t => t.1) h₂).symm
          exact hc₂
      · rw [if_pos (by simp [hw1])] at h₂
        obtain rfl : m' = m₂ := (congrArg (fun t => t.1) h₂).symm
        exact hc₂
  · have h₂ : (if !w₁ then (m, some GErr.writeModelFail, [Ev.writeModelInfo])
        else if !w₂ then (m, some GErr.writeModelBindingFail,
          [Ev.writeModelInfo, Ev.writeModelBinding])
        else (m, (none : Option GErr), [Ev.writeModelInfo, Ev.writeModelBinding]))
        = (m', r, evs) := h
    by_cases hw1 : w₁
    · rw [if_neg (by simp [hw1])] at h₂
      by_cases hw2 : w₂
      · rw [if_neg (by simp [hw2])] at h₂
        obtain rfl : m' = m := (congrArg (fun t => t.1) h₂).symm
        rfl
      · rw [if_pos (by simp [hw2])] at h₂
        obtain rfl : m' = m := (congrArg (fun t => t.1) h₂).symm
        rfl
    · rw [if_pos (by simp [hw1])] at h₂
      obtain rfl : m' = m := (congrArg (fun t => t.1) h₂).symm
      rfl

/-- Shape of the final model of a `Process` run: either validation failed and
the model is the loaded one with only the random source installed, or the run
got past validation and the core fields are exactly the installed random
source and the upgraded versions (merging, finalizing, removal and writing
preserve them). -/
theorem process_core (opts : GenOpts) (env : PEnv)
    (hm : ∀ c mm, coreFields ((env.merge c mm).1) = coreFields mm)
    (m m' : ModelInfo) (hl : env.loaded = some m)
    (hres : (Process opts env).1 = some m') :
    (m' = { m with rand := resolveRand opts.rand env.clock }) ∨
    coreFields m' = (resolveRand opts.rand env.clock, ModelVersion, ModelVersion) := by
  simp only [Process] at hres
  split at hres
  · exact absurd hres (by simp)
  · rw [hl] at hres
    have hres₂ : (if !modelValidate { m with rand := resolveRand opts.rand env.clock } then ((some { m with rand := resolveRand opts.rand env.clock } : Option ModelInfo), some GErr.invalidModel, if PathIsDirOrPattern env.isDir env.goosWindows opts.inPath then [Ev.cleanup] else []) else match createBinding env.merge { m with rand := resolveRand opts.rand env.clock, minimumParserVersion := ModelVersion, modelVersion := ModelVersion } env.files with | (m₃, some e, evsB) => (some m₃, some e, (if PathIsDirOrPattern env.isDir env.goosWindows opts.inPath then [Ev.cleanup] else []) ++ evsB) | (m₃, none, evsB) => match createModel (PathIsDirOrPattern env.isDir env.goosWindows opts.inPath) env.writeModelOk env.writeModelBindingOk m₃ with | (m₄, r₄, evs₄) => (some m₄, r₄, (if PathIsDirOrPattern env.isDir env.goosWindows opts.inPath then [Ev.cleanup] else []) ++ evsB ++ evs₄)).1 = some m' := hres
    split at hres₂
    · left
      have h₃ : (some { m with rand := resolveRand opts.rand env.clock } : Option ModelInfo)
          = some m' := hres₂
      exact (Option.some.inj h₃).symm
    · right
      rcases hcb : createBinding env.merge { m with rand := resolveRand opts.rand env.clock, minimumParserVersion := ModelVersion, modelVersion := ModelVersion } env.files with ⟨m₃, rb, evsB⟩
      rw [hcb] at hres₂
      have hcore₃ : coreFields m₃
          = (resolveRand opts.rand env.clock, ModelVersion, ModelVersion) := by
        exact createBinding_core env.merge hm env.files _ m₃ rb evsB hcb
      cases rb with
      | some e =>
        have h₄ : (some m₃ : Option ModelInfo) = some m' := hres₂
        rw [← Option.some.inj h₄]
        exact hcore₃
      | none =>
        have h₄ : (some (createModel (PathIsDirOrPattern env.isDir env.goosWindows opts.inPath) env.writeModelOk env.writeModelBindingOk m₃).1 : Option ModelInfo) = some m' := hres₂
        rcases hcmod : createModel (PathIsDirOrPattern env.isDir env.goosWindows opts.inPath) env.writeModelOk env.writeModelBindingOk m₃ with ⟨m₄, r₄, evs₄⟩
        rw [hcmod] at h₄
        have h₅ : m₄ = m' := Option.some.inj h₄
        rw [← h₅]
        exact (createModel_core _ _ _ m₃ m₄ r₄ evs₄ hcmod).trans hcore₃

/-- C6: the random uid source is the sole source of non-determinism and is
externally seedable.  When the caller supplies a random source, (a) the whole
run is independent of the clock (the only non-deterministic input), so two
runs over identical inputs with identically seeded sources are identical, and
(b) exactly the supplied source is installed on the loaded model (a fresh
clock-seeded one is created only when none is supplied); the merge function
is assumed not to replace the installed source. -/
theorem process_rand_deterministic (opts : GenOpts) (env : PEnv) (rnd c₁ c₂ : Nat)
    (hr : opts.rand = some rnd)
    (hm : ∀ c mm, coreFields ((env.merge c mm).1) = coreFields mm) :
    Process opts { env with clock := c₁ } = Process opts { env with clock := c₂ } ∧
    (∀ m', (Process opts env).1 = some m' → m'.rand = rnd) := by
  constructor
  · simp only [Process, resolveRand, hr]
  · intro m' hres
    cases hl : env.loaded with
    | none =>
      simp only [Process] at hres
      split at hres
      · exact absurd hres (by simp)
      · rw [hl] at hres
        have h₂ : (none : Option ModelInfo) = some m' := hres
        exact absurd h₂ (by simp)
    | some m =>
      rcases process_core opts env hm m m' hl hres with rfl | hcf
      · show resolveRand opts.rand env.clock = rnd
        rw [hr]
        rfl
      · have h₁ : m'.rand = resolveRand opts.rand env.clock := congrArg (fun t => t.1) hcf
        rw [h₁, hr]
        rfl

/-- C6 witness: with a supplied random source, two runs at different clock
values are identical; the hypotheses are discharged at a trivially preserving
merge function. -/
theorem process_rand_deterministic_witness :
    Process { inPath := chars "b.fbs", rand := some 7 }
      { isDir := fun _ => false, goosWindows := false, files := [],
        loaded := some sampleModel, clock := 3, cleanOk := true,
        writeModelOk := true, writeModelBindingOk := true,
        merge := fun _ mm => (mm, none) }
    = Process { inPath := chars "b.fbs", rand := some 7 }
      { isDir := fun _ => false, goosWindows := false, files := [],
        loaded := some sampleModel, clock := 4, cleanOk := true,
        writeModelOk := true, writeModelBindingOk := true,
        merge := fun _ mm => (mm, none) } :=
  (process_rand_deterministic { inPath := chars "b.fbs", rand := some 7 }
    { isDir := fun _ => false, goosWindows := false, files := [],
      loaded := some sampleModel, clock := 3, cleanOk := true,
      writeModelOk := true, writeModelBindingOk := true,
      merge := fun _ mm => (mm, none) } 7 3 4 rfl (fun _ _ => rfl)).1

/-- C8: the version fields never decrease across a `Process` run: for every
loaded model accepted by the load-time validation, the resulting model's
`ModelVersion` and `MinimumParserVersion` are at least the loaded values (the
run upgrades them to the current `ModelVersion`, which validation guarantees
to be an upper bound of the loaded values). -/
theorem process_versions_monotone (opts : GenOpts) (env : PEnv) (m m' : ModelInfo)
    (hl : env.loaded = some m)
    (hm : ∀ c mm, coreFields ((env.merge c mm).1) = coreFields mm)
    (hval : modelValidate m = true)
    (hres : (Process opts env).1 = some m') :
    m.modelVersion ≤ m'.modelVersion ∧
    m.minimumParserVersion ≤ m'.minimumParserVersion := by
  rcases process_core opts env hm m m' hl hres with rfl | hcf
  · exact ⟨le_refl _, le_refl _⟩
  · have hv1 : m'.modelVersion = ModelVersion := congrArg (fun t => t.2.1) hcf
    have hv2 : m'.minimumParserVersion = ModelVersion := congrArg (fun t => t.2.2) hcf
    have hb : m.modelVersion ≤ ModelVersion ∧ m.minimumParserVersion ≤ ModelVersion := by
      simp only [modelValidate, Bool.and_eq_true, decide_eq_true_eq] at hval
      exact ⟨hval.1.2, hval.2⟩
    rw [hv1, hv2]
    exact hb

/-- C8 witness: a concrete accepted model run to completion; the resulting
versions are the upgraded ones, bounding the loaded values from above. -/
theorem process_versions_monotone_witness :
    sampleModel.modelVersion ≤ ModelVersion ∧
    sampleModel.minimumParserVersion ≤ ModelVersion :=
  process_versions_monotone { inPath := chars "c.fbs", rand := some 9 }
    { isDir := fun _ => false, goosWindows := false, files := [],
      loaded := some sampleModel, clock := 0, cleanOk := true,
      writeModelOk := true, writeModelBindingOk := true,
      merge := fun _ mm => (mm, none) }
    sampleModel _ rfl (fun _ _ => rfl) (by decide) rfl

end ObxGen
